import Mathlib

/-!
# headerimport: reader / writer pipeline of `main.go`

A shallow embedding of `readLoop`, `writeLoop`, `doImport` and `main` of
`src/main.go`, followed by the properties established about them.

Conventions of the embedding

* `Retrieve` is an oracle `retrieve : Nat → Option B` (`none` = the call returned an
  error); `rlp.DecodeBytes` is a total function `decode : B → H`, its error being
  ignored by the source (line 119).
* Go `uint64` values are natural numbers, the increment `i++` is taken modulo `2^64`.
* Go `int` / `time.Duration` values are integers, additions wrap to 64-bit two's
  complement (`wrapInt64`).
* The `select` of `readLoop` (lines 125-129) is resolved by an oracle
  `gate : Nat → Bool`: `gate j = true` means that the select reached after `j`
  batches have been delivered takes the `<-closeCh` branch.
-/

namespace HeaderImport

/-! ## Machine integers -/

/-- Number of values of a Go `uint64`. -/
def uint64Mod : Nat := 2 ^ 64

/-- Conversion `uint64(x)` of a Go `int`. -/
def toUint64 (x : Int) : Nat := (x % (2 ^ 64 : Int)).toNat

/-- Result of a 64-bit two's complement operation whose exact value is `x`. -/
def wrapInt64 (x : Int) : Int := (x + 2 ^ 63) % (2 ^ 64 : Int) - 2 ^ 63

/-! ## readLoop (main.go, lines 108-134) -/

/-- Constant `chunkSize` (line 108). -/
def chunkSize : Nat := 2048

/-- What one pass through the loop body (lines 113-130) does before the `select`. -/
inductive IterResult (H : Type) where
  /-- `Retrieve` failed: log and `return` (lines 114-117). -/
  | readError : IterResult H
  /-- The chunk is still short of `chunkSize`: go on with the grown chunk. -/
  | more (chunk : List H) : IterResult H
  /-- The chunk is full: `hdrs` is the copy to send, the chunk is reset (lines 122-124). -/
  | full (hdrs : List H) : IterResult H
deriving DecidableEq, Repr

/-- Lines 113-124 of `readLoop`: retrieve item `i`, decode it, append it to the chunk,
and copy the chunk out once it holds `chunkSize` headers. -/
def readIter {B H : Type} (retrieve : Nat → Option B) (decode : B → H)
    (i : Nat) (chunk : List H) : IterResult H :=
  match retrieve i with
  | none => IterResult.readError
  | some data =>
    let chunk := chunk ++ [decode data]
    if chunk.length ≥ chunkSize then IterResult.full (chunk.take chunkSize)
    else IterResult.more chunk

/-- Observable outcome of a finished `readLoop`. -/
structure ReadOut (H : Type) where
  /-- Batches sent on `headerCh`, in order. -/
  delivered : List (List H)
  /-- Whether `close(headerCh)` (line 132) was executed. -/
  closed : Bool
  /-- Arguments of the `Retrieve` calls, in order. -/
  calls : List Nat
deriving DecidableEq, Repr

/-- The loop of `readLoop` from counter `i` on, with the batches delivered and the
`Retrieve` calls made so far; every unfolding is one test of `i < to`. `none` means
that the fuel ran out. -/
def readLoopFrom {B H : Type} (retrieve : Nat → Option B) (decode : B → H)
    (gate : Nat → Bool) (to_ : Nat) :
    Nat → Nat → List H → List (List H) → List Nat → Option (ReadOut H)
  | 0, _, _, _, _ => none
  | fuel + 1, i, chunk, delivered, calls =>
    if i < to_ then
      match readIter retrieve decode i chunk with
      | IterResult.readError => some ⟨delivered, false, calls ++ [i]⟩
      | IterResult.more chunk =>
        readLoopFrom retrieve decode gate to_ fuel ((i + 1) % uint64Mod) chunk
          delivered (calls ++ [i])
      | IterResult.full hdrs =>
        if gate delivered.length then some ⟨delivered, false, calls ++ [i]⟩
        else
          readLoopFrom retrieve decode gate to_ fuel ((i + 1) % uint64Mod) []
            (delivered ++ [hdrs]) (calls ++ [i])
    else some ⟨delivered, true, calls⟩

/-- Function `readLoop(from, to, freezer, headerCh, closeCh)`. The fuel `to - from + 1`
covers the `to - from` passes through the body and the last test of `i < to`. -/
def readLoop {B H : Type} (retrieve : Nat → Option B) (decode : B → H)
    (gate : Nat → Bool) (from_ to_ : Nat) : Option (ReadOut H) :=
  readLoopFrom retrieve decode gate to_ (to_ - from_ + 1) from_ [] [] []

/-- Header obtained from item `i`: the decoded payload, when `Retrieve` succeeds. -/
def headerAt {B H : Type} (retrieve : Nat → Option B) (decode : B → H) (i : Nat) :
    Option H :=
  (retrieve i).map decode

/-- The gate that is never closed. -/
def gateOpen : Nat → Bool := fun _ => false

/-- Headers decoded from `Retrieve(a)`, ..., `Retrieve(a+n-1)` (failed calls give none). -/
def headersOf {B H : Type} (retrieve : Nat → Option B) (decode : B → H) (a n : Nat) :
    List H :=
  (List.range' a n).filterMap (headerAt retrieve decode)

/-- The `q` consecutive groups of `chunkSize` headers decoded from item `a` on. -/
def batchesOf {B H : Type} (retrieve : Nat → Option B) (decode : B → H) :
    Nat → Nat → List (List H)
  | _, 0 => []
  | a, q + 1 =>
    headersOf retrieve decode a chunkSize :: batchesOf retrieve decode (a + chunkSize) q

/-! ## writeLoop (main.go, lines 136-208) -/

/-- Behaviour of the chain backend and of the clock as seen by `writeLoop`. Batches are
numbered from `0` in the order in which `writeLoop` receives them. -/
structure ChainEnv where
  /-- `core.SetupGenesisBlock` returns no error (line 152). -/
  genesisOk : Bool
  /-- `core.NewHeaderChain` returns no error (line 156). -/
  chainOk : Bool
  /-- `hc.ValidateHeaderChain` returns no error on batch `j` (line 181). -/
  validateOk : Nat → Bool
  /-- `hc.InsertHeaderChain` returns no error on batch `j` (line 188). -/
  insertOk : Nat → Bool
  /-- Value of `t1.Sub(t0)` for batch `j`, in nanoseconds (line 193). -/
  vTime : Nat → Int
  /-- Value of `t2.Sub(t1)` for batch `j`, in nanoseconds (line 194). -/
  wTime : Nat → Int

/-- Constant `time.Millisecond`, in nanoseconds. -/
def millisecond : Int := 1000000

/-- Program point of `writeLoop`. -/
inductive WriterPc where
  /-- Before the set-up of lines 137-160. -/
  | start : WriterPc
  /-- At the `select` of line 174. -/
  | recv : WriterPc
  /-- After a `return`. -/
  | returned : WriterPc
deriving DecidableEq, Repr

/-- Local variables of `writeLoop` together with a record of its calls. The three
series hold the integers that the source converts with `float64(...)`; the conversion
is exact for integers of magnitude at most `2^53`. -/
structure Writer (H : Type) where
  pc : WriterPc
  validationTime : Int
  writeTime : Int
  headersWritten : Nat
  xVals : List Int
  writeTimes : List Int
  validationTimes : List Int
  /-- Arguments of the `ValidateHeaderChain` calls, in order. -/
  validated : List (List H)
  /-- Arguments of the `InsertHeaderChain` calls, in order. -/
  inserted : List (List H)
  /-- Headers passed to the `InsertHeaderChain` calls that returned no error. -/
  committed : List H
  /-- Arguments `(xVals, writeTimes, validationTimes)` of the `render` call, if made. -/
  rendered : Option (List Int × List Int × List Int)
deriving DecidableEq, Repr

/-- State of `writeLoop` on entry. -/
def Writer.init (H : Type) : Writer H :=
  ⟨WriterPc.start, 0, 0, 0, [], [], [], [], [], [], none⟩

/-- The `return` statement: only the program point changes. -/
def Writer.ret {H : Type} (w : Writer H) : Writer H :=
  { w with pc := WriterPc.returned }

/-- Lines 137-172: genesis set-up and creation of the header chain. -/
def writerStart {H : Type} (env : ChainEnv) (w : Writer H) : Writer H :=
  if !env.genesisOk then w.ret
  else if !env.chainOk then w.ret
  else { w with pc := WriterPc.recv }

/-- Lines 180-203: validation, insertion and accounting of a received batch. -/
def writeBatch {H : Type} (env : ChainEnv) (w : Writer H) (hdrs : List H) : Writer H :=
  let j := w.validated.length
  let w := { w with validated := w.validated ++ [hdrs] }
  if !env.validateOk j then w.ret
  else
    let w := { w with inserted := w.inserted ++ [hdrs] }
    if !env.insertOk j then w.ret
    else
      let headersWritten := (w.headersWritten + hdrs.length) % uint64Mod
      let validationTime := wrapInt64 (w.validationTime + env.vTime j)
      let writeTime := wrapInt64 (w.writeTime + env.wTime j)
      { w with
        committed := w.committed ++ hdrs
        headersWritten := headersWritten
        validationTime := validationTime
        writeTime := writeTime
        xVals := w.xVals ++ [(headersWritten : Int)]
        validationTimes := w.validationTimes ++ [validationTime.tdiv millisecond]
        writeTimes := w.writeTimes ++ [writeTime.tdiv millisecond] }

/-- What the `select` of line 174 can yield. -/
inductive Recv (H : Type) where
  /-- A batch sent by `readLoop`. -/
  | batch (hdrs : List H) : Recv H
  /-- The `nil` received from the closed `headerCh`. -/
  | closed : Recv H
  /-- The branch `<-closeCh`. -/
  | cancel : Recv H
deriving DecidableEq, Repr

/-- One round of the `for`/`select` of lines 173-207. A writer that is not at the
`select` is unchanged. -/
def writerRecv {H : Type} (env : ChainEnv) (w : Writer H) (r : Recv H) : Writer H :=
  match w.pc with
  | WriterPc.recv =>
    match r with
    | Recv.batch hdrs => writeBatch env w hdrs
    | Recv.closed =>
      { w with rendered := some (w.xVals, w.writeTimes, w.validationTimes)
               pc := WriterPc.returned }
    | Recv.cancel => w.ret
  | _ => w

/-- Function `writeLoop` run on the sequence `inputs` of outcomes of its `select`. The
result has `pc = recv` when `writeLoop` is left waiting after the last input. -/
def writeLoop {H : Type} (env : ChainEnv) (inputs : List (Recv H)) : Writer H :=
  inputs.foldl (writerRecv env) (writerStart env (Writer.init H))

/-! ## The two loops run together (doImport, lines 80-100) -/

/-- Program point of `readLoop` in the concurrent run. -/
inductive Reader (H : Type) where
  /-- At the test `i < to` with the current chunk. -/
  | loop (i : Nat) (chunk : List H) : Reader H
  /-- Blocked in the `select` of lines 125-129 with the batch `hdrs`. -/
  | select (i : Nat) (hdrs : List H) : Reader H
  /-- Returned; `closed` tells whether `close(headerCh)` was executed. -/
  | returned (closed : Bool) : Reader H
deriving DecidableEq, Repr

/-- Whether `readLoop` has returned. -/
def Reader.isReturned {H : Type} : Reader H → Bool
  | Reader.returned _ => true
  | _ => false

/-- State of the pipeline: the two goroutines and whether `closeCh` is closed. -/
structure System (H : Type) where
  reader : Reader H
  writer : Writer H
  gateClosed : Bool
deriving DecidableEq, Repr

/-- State when `doImport` has started both goroutines on the range from `from_`. -/
def System.init (H : Type) (from_ : Nat) : System H :=
  ⟨Reader.loop from_ [], Writer.init H, false⟩

/-- Atomic actions of the pipeline. -/
inductive Event where
  /-- `readLoop` runs from the loop test to its next blocking point or return. -/
  | read : Event
  /-- `writeLoop` runs its set-up (lines 137-172). -/
  | writerInit : Event
  /-- The send of line 126 meets the receive of line 175; the batch is processed. -/
  | handoff : Event
  /-- The writer receives `nil` from the closed `headerCh`. -/
  | recvClosed : Event
  /-- The interrupt goroutine executes `close(closeCh)` (line 98). -/
  | interrupt : Event
  /-- The select of `readLoop` takes `<-closeCh` (line 127). -/
  | readerCancel : Event
  /-- The select of `writeLoop` takes `<-closeCh` (line 204). -/
  | writerCancel : Event
deriving DecidableEq, Repr

/-- Effect of one action; `none` when the action is not enabled in the state. -/
def step {B H : Type} (retrieve : Nat → Option B) (decode : B → H) (env : ChainEnv)
    (to_ : Nat) (s : System H) : Event → Option (System H)
  | Event.read =>
    match s.reader with
    | Reader.loop i chunk =>
      if i < to_ then
        match readIter retrieve decode i chunk with
        | IterResult.readError => some { s with reader := Reader.returned false }
        | IterResult.more chunk =>
          some { s with reader := Reader.loop ((i + 1) % uint64Mod) chunk }
        | IterResult.full hdrs => some { s with reader := Reader.select i hdrs }
      else some { s with reader := Reader.returned true }
    | _ => none
  | Event.writerInit =>
    match s.writer.pc with
    | WriterPc.start => some { s with writer := writerStart env s.writer }
    | _ => none
  | Event.handoff =>
    match s.reader, s.writer.pc with
    | Reader.select i hdrs, WriterPc.recv =>
      some { s with reader := Reader.loop ((i + 1) % uint64Mod) []
                    writer := writerRecv env s.writer (Recv.batch hdrs) }
    | _, _ => none
  | Event.recvClosed =>
    match s.reader, s.writer.pc with
    | Reader.returned true, WriterPc.recv =>
      some { s with writer := writerRecv env s.writer Recv.closed }
    | _, _ => none
  | Event.interrupt =>
    if s.gateClosed then none else some { s with gateClosed := true }
  | Event.readerCancel =>
    match s.reader, s.gateClosed with
    | Reader.select _ _, true => some { s with reader := Reader.returned false }
    | _, _ => none
  | Event.writerCancel =>
    match s.writer.pc, s.gateClosed with
    | WriterPc.recv, true => some { s with writer := writerRecv env s.writer Recv.cancel }
    | _, _ => none

/-- Run of a sequence of actions; `none` when one of them is not enabled. -/
def run {B H : Type} (retrieve : Nat → Option B) (decode : B → H) (env : ChainEnv)
    (to_ : Nat) : System H → List Event → Option (System H)
  | s, [] => some s
  | s, e :: es =>
    match step retrieve decode env to_ s e with
    | none => none
    | some s' => run retrieve decode env to_ s' es

/-! ## doImport and main (main.go, lines 36-102) -/

/-- Outcome of the set-up calls of `doImport`. -/
structure SetupEnv where
  /-- `setupTempDB` returns no error (line 62). -/
  tempDbOk : Bool
  /-- `rawdb.NewLevelDBDatabaseWithFreezer` returns no error (line 70). -/
  dbOk : Bool
  /-- `rawdb.NewFreezerTable` returns no error (line 75). -/
  freezerOk : Bool

/-- Value of Go type `error`. -/
inductive GoError where
  /-- The `nil` error. -/
  | nil : GoError
  /-- An error with its message. -/
  | err (msg : String) : GoError
deriving DecidableEq, Repr

/-- Upper bound `uint64(1+count)` passed to `readLoop` (line 85). -/
def readBound (count : Int) : Nat := toUint64 (wrapInt64 (1 + count))

/-- Function `doImport`: `some e` is the returned error value, and `none` means that
`wg.Wait()` (line 100) has not returned by the end of the schedule `sched`, or that
`sched` is not a run of the pipeline. -/
def doImport {B H : Type} (setup : SetupEnv) (retrieve : Nat → Option B) (decode : B → H)
    (env : ChainEnv) (count : Int) (sched : List Event) : Option GoError :=
  if !setup.tempDbOk then some (GoError.err "Failed creating temp db")
  else if !setup.dbOk then some (GoError.err "Failed creating temp db")
  else if !setup.freezerOk then some (GoError.err "Failed opening ancients")
  else
    match run retrieve decode env (readBound count) (System.init H 1) sched with
    | none => none
    | some s =>
      if s.reader.isReturned && s.writer.pc == WriterPc.returned then some GoError.nil
      else none

/-- Model of the library function `strconv.Atoi` on a 64-bit platform: an optional sign,
then one or more decimal digits, denoting a value in the range of `int`; `none` is a
returned error. -/
def atoi (s : String) : Option Int :=
  let cs := s.toList
  let neg := cs.head? == some '-'
  let ds := if cs.head? == some '-' || cs.head? == some '+' then cs.tail else cs
  if ds.isEmpty || !ds.all Char.isDigit then none
  else
    let n : Nat := ds.foldl (fun a c => a * 10 + (c.toNat - 48)) 0
    let v : Int := if neg then -(n : Int) else (n : Int)
    if -(2 ^ 63 : Int) ≤ v ∧ v ≤ 2 ^ 63 - 1 then some v else none

/-- What `main` does: the arguments of its `doImport` call, if it makes one, and the exit
status (`none` when the process has not exited by the end of the schedule). -/
structure MainOut where
  importArgs : Option (String × Int)
  exit : Option Nat
deriving DecidableEq, Repr

/-- Function `main` on the argument vector `args` (`os.Args`). -/
def main {B H : Type} (args : List String) (setup : SetupEnv) (retrieve : Nat → Option B)
    (decode : B → H) (env : ChainEnv) (sched : List Event) : MainOut :=
  match args with
  | _ :: ancientDir :: arg2 :: _ =>
    match atoi arg2 with
    | none => ⟨none, some 1⟩
    | some count =>
      match doImport setup retrieve decode env count sched with
      | none => ⟨some (ancientDir, count), none⟩
      | some (GoError.err _) => ⟨some (ancientDir, count), some 1⟩
      | some GoError.nil => ⟨some (ancientDir, count), some 0⟩
  | _ => ⟨none, some 1⟩

/-! ## Auxiliary notions used in the statements -/

/-- A chain backend on which every call succeeds and a clock that does not advance. -/
def okEnv : ChainEnv := ⟨true, true, fun _ => true, fun _ => true, fun _ => 0, fun _ => 0⟩

/-- An archive in which item `i` has payload `i`. -/
def idArchive : Nat → Option Nat := fun i => some i

/-- An archive in which every item but item `k` has its index as payload, and the
retrieval of item `k` fails. -/
def holedArchive (k : Nat) : Nat → Option Nat := fun i => if i = k then none else some i

/-- Sum `f 0 + ... + f (n-1)`. -/
def sumTo (f : Nat → Int) (n : Nat) : Int := ((List.range n).map f).sum

/-- Total number of headers of a list of batches. -/
def lenSum {H : Type} (bs : List (List H)) : Nat := (bs.map List.length).sum

/-- State of `writeLoop` at its `select` after the batches `bs` have all been validated
and inserted without error. -/
def okState {H : Type} (env : ChainEnv) (bs : List (List H)) : Writer H :=
  { pc := WriterPc.recv
    validationTime := wrapInt64 (sumTo env.vTime bs.length)
    writeTime := wrapInt64 (sumTo env.wTime bs.length)
    headersWritten := lenSum bs % uint64Mod
    xVals := (List.range bs.length).map
      (fun i => ((lenSum (bs.take (i + 1)) % uint64Mod : Nat) : Int))
    writeTimes := (List.range bs.length).map
      (fun i => (wrapInt64 (sumTo env.wTime (i + 1))).tdiv millisecond)
    validationTimes := (List.range bs.length).map
      (fun i => (wrapInt64 (sumTo env.vTime (i + 1))).tdiv millisecond)
    validated := bs
    inserted := bs
    committed := bs.flatten
    rendered := none }

/-- Invariant of the pipeline started on the range from `from_` to `to_`: `q` batches
have been handed over, the first `q'` of them are committed, and `readLoop` stands where
its counter and chunk say. -/
def Inv {B H : Type} (retrieve : Nat → Option B) (decode : B → H) (from_ to_ : Nat)
    (s : System H) : Prop :=
  ∃ q q' : Nat, q' ≤ q ∧
    s.writer.committed = headersOf retrieve decode from_ (q' * chunkSize) ∧
    (s.writer.pc ≠ WriterPc.returned → q' = q) ∧
    match s.reader with
    | Reader.loop i chunk =>
      i = from_ + q * chunkSize + chunk.length ∧
      chunk = headersOf retrieve decode (from_ + q * chunkSize) chunk.length ∧
      chunk.length < chunkSize ∧ i ≤ max from_ to_ ∧
      ∀ k, from_ ≤ k → k < i → (retrieve k).isSome = true
    | Reader.select i hdrs =>
      i + 1 = from_ + (q + 1) * chunkSize ∧
      hdrs = headersOf retrieve decode (from_ + q * chunkSize) chunkSize ∧
      i < to_ ∧ ∀ k, from_ ≤ k → k ≤ i → (retrieve k).isSome = true
    | Reader.returned _ =>
      from_ + q * chunkSize ≤ max from_ to_ ∧
      ∀ k, from_ ≤ k → k < from_ + q * chunkSize → (retrieve k).isSome = true

/-! ## Lemmas on readLoop -/

section ReadLemmas

variable {B H : Type} (retrieve : Nat → Option B) (decode : B → H)

theorem headersOf_zero (a : Nat) : headersOf retrieve decode a 0 = [] := rfl

theorem headersOf_cons (a n : Nat) (b : B) (hb : retrieve a = some b) :
    headersOf retrieve decode a (n + 1) = decode b :: headersOf retrieve decode (a + 1) n := by
  simp [headersOf, List.range'_succ, headerAt, hb]

theorem headersOf_length (a n : Nat)
    (h : ∀ k, a ≤ k → k < a + n → (retrieve k).isSome = true) :
    (headersOf retrieve decode a n).length = n := by
  induction n generalizing a with
  | zero => rfl
  | succ n ih =>
    obtain ⟨b, hb⟩ := Option.isSome_iff_exists.mp (h a (le_refl a) (by omega))
    rw [headersOf_cons retrieve decode a n b hb, List.length_cons,
      ih (a + 1) (fun k h1 h2 => h k (by omega) (by omega))]

theorem headersOf_add (a m n : Nat) :
    headersOf retrieve decode a (m + n) =
      headersOf retrieve decode a m ++ headersOf retrieve decode (a + m) n := by
  unfold headersOf
  rw [← List.filterMap_append, Nat.add_comm m n]
  congr 1
  have e := List.range'_append a m n 1
  rw [Nat.one_mul] at e
  exact e.symm

theorem batchesOf_length (a q : Nat) : (batchesOf retrieve decode a q).length = q := by
  induction q generalizing a with
  | zero => rfl
  | succ q ih => simp [batchesOf, ih]

theorem batchesOf_flatten (a q : Nat) :
    (batchesOf retrieve decode a q).flatten = headersOf retrieve decode a (q * chunkSize) := by
  induction q generalizing a with
  | zero => simp [batchesOf, headersOf]
  | succ q ih =>
    rw [batchesOf, List.flatten_cons, ih, Nat.succ_mul, Nat.add_comm (q * chunkSize),
      headersOf_add]

theorem batchesOf_mem_length (a q : Nat)
    (h : ∀ k, a ≤ k → k < a + q * chunkSize → (retrieve k).isSome = true) :
    ∀ b ∈ batchesOf retrieve decode a q, b.length = chunkSize := by
  induction q generalizing a with
  | zero => simp [batchesOf]
  | succ q ih =>
    intro b hb
    rw [batchesOf, List.mem_cons] at hb
    rcases hb with rfl | hb
    · exact headersOf_length retrieve decode a chunkSize
        (fun k h1 h2 => h k h1 (by rw [Nat.succ_mul]; omega))
    · exact ih (a + chunkSize)
        (fun k h1 h2 => h k (by omega) (by rw [Nat.succ_mul]; omega)) b hb

theorem batchesOf_succ_last (a q : Nat) :
    batchesOf retrieve decode a (q + 1) =
      batchesOf retrieve decode a q ++ [headersOf retrieve decode (a + q * chunkSize) chunkSize] := by
  induction q generalizing a with
  | zero => simp [batchesOf]
  | succ q ih =>
    have e : a + chunkSize + q * chunkSize = a + (q * chunkSize + chunkSize) := by omega
    rw [batchesOf, ih (a + chunkSize), batchesOf, List.cons_append, Nat.succ_mul, e]

variable (gate : Nat → Bool) (to_ : Nat)

theorem readLoopFrom_end (fuel i : Nat) (chunk : List H) (d : List (List H)) (c : List Nat)
    (hi : ¬ i < to_) :
    readLoopFrom retrieve decode gate to_ (fuel + 1) i chunk d c = some ⟨d, true, c⟩ := by
  simp [readLoopFrom, hi]

theorem readLoopFrom_error (fuel i : Nat) (chunk : List H) (d : List (List H))
    (c : List Nat) (hi : i < to_) (hr : retrieve i = none) :
    readLoopFrom retrieve decode gate to_ (fuel + 1) i chunk d c =
      some ⟨d, false, c ++ [i]⟩ := by
  simp [readLoopFrom, hi, readIter, hr]

theorem readLoopFrom_more (fuel i : Nat) (chunk : List H) (d : List (List H))
    (c : List Nat) (b : B) (hi : i < to_) (ht : to_ < uint64Mod) (hr : retrieve i = some b)
    (hc : chunk.length + 1 < chunkSize) :
    readLoopFrom retrieve decode gate to_ (fuel + 1) i chunk d c =
      readLoopFrom retrieve decode gate to_ fuel (i + 1) (chunk ++ [decode b]) d
        (c ++ [i]) := by
  have hm : (i + 1) % uint64Mod = i + 1 := Nat.mod_eq_of_lt (by omega)
  have hlen : ¬ chunkSize ≤ chunk.length + 1 := by omega
  simp [readLoopFrom, hi, readIter, hr, hm, hlen]

theorem readLoopFrom_send (fuel i : Nat) (chunk : List H) (d : List (List H))
    (c : List Nat) (b : B) (hi : i < to_) (ht : to_ < uint64Mod) (hr : retrieve i = some b)
    (hc : chunk.length + 1 = chunkSize) (hg : gate d.length = false) :
    readLoopFrom retrieve decode gate to_ (fuel + 1) i chunk d c =
      readLoopFrom retrieve decode gate to_ fuel (i + 1) [] (d ++ [chunk ++ [decode b]])
        (c ++ [i]) := by
  have hm : (i + 1) % uint64Mod = i + 1 := Nat.mod_eq_of_lt (by omega)
  have hlen : chunkSize ≤ chunk.length + 1 := by omega
  have htake : List.take chunkSize (chunk ++ [decode b]) = chunk ++ [decode b] :=
    List.take_of_length_le (by simp [hc])
  simp [readLoopFrom, hi, readIter, hr, hm, hlen, hg, htake]

theorem readLoopFrom_cancel (fuel i : Nat) (chunk : List H) (d : List (List H))
    (c : List Nat) (b : B) (hi : i < to_) (hr : retrieve i = some b)
    (hc : chunk.length + 1 = chunkSize) (hg : gate d.length = true) :
    readLoopFrom retrieve decode gate to_ (fuel + 1) i chunk d c =
      some ⟨d, false, c ++ [i]⟩ := by
  have hlen : chunkSize ≤ chunk.length + 1 := by omega
  simp [readLoopFrom, hi, readIter, hr, hlen, hg]

/-- Passes through the body that leave the chunk short of `chunkSize`. -/
theorem readLoopFrom_fill (m fuel i : Nat) (chunk : List H) (d : List (List H))
    (c : List Nat) (hi : i + m ≤ to_) (ht : to_ < uint64Mod)
    (hr : ∀ k, i ≤ k → k < i + m → (retrieve k).isSome = true)
    (hc : chunk.length + m < chunkSize) :
    readLoopFrom retrieve decode gate to_ (fuel + m) i chunk d c =
      readLoopFrom retrieve decode gate to_ fuel (i + m)
        (chunk ++ headersOf retrieve decode i m) d (c ++ List.range' i m) := by
  induction m generalizing i chunk c with
  | zero => simp [headersOf]
  | succ m ih =>
    obtain ⟨b, hb⟩ := Option.isSome_iff_exists.mp (hr i (le_refl i) (by omega))
    have e : fuel + (m + 1) = (fuel + m) + 1 := rfl
    rw [e, readLoopFrom_more retrieve decode gate to_ (fuel + m) i chunk d c b (by omega) ht hb
      (by omega)]
    rw [ih (i + 1) (chunk ++ [decode b]) (c ++ [i]) (by omega)
      (fun k h1 h2 => hr k (by omega) (by omega)) (by simp; omega)]
    rw [headersOf_cons retrieve decode i m b hb, List.range'_succ]
    have e2 : i + 1 + m = i + (m + 1) := by omega
    simp [e2]

/-- Passes through the body up to and including the one that fills the chunk, the
batch being delivered. -/
theorem readLoopFrom_batch (m fuel i : Nat) (chunk : List H) (d : List (List H))
    (c : List Nat) (hi : i + (m + 1) ≤ to_) (ht : to_ < uint64Mod)
    (hr : ∀ k, i ≤ k → k < i + (m + 1) → (retrieve k).isSome = true)
    (hc : chunk.length + (m + 1) = chunkSize) (hg : gate d.length = false) :
    readLoopFrom retrieve decode gate to_ (fuel + (m + 1)) i chunk d c =
      readLoopFrom retrieve decode gate to_ fuel (i + (m + 1)) []
        (d ++ [chunk ++ headersOf retrieve decode i (m + 1)])
        (c ++ List.range' i (m + 1)) := by
  obtain ⟨b, hb⟩ := Option.isSome_iff_exists.mp (hr (i + m) (by omega) (by omega))
  have e : fuel + (m + 1) = (fuel + 1) + m := by omega
  rw [e, readLoopFrom_fill retrieve decode gate to_ m (fuel + 1) i chunk d c (by omega) ht
    (fun k h1 h2 => hr k h1 (by omega)) (by omega)]
  rw [readLoopFrom_send retrieve decode gate to_ fuel (i + m) _ d _ b (by omega) ht hb
    (by rw [List.length_append, headersOf_length retrieve decode i m
      (fun k h1 h2 => hr k h1 (by omega))]; omega) hg]
  have e3 : headersOf retrieve decode i (m + 1) =
      headersOf retrieve decode i m ++ [decode b] := by
    rw [headersOf_add, headersOf_cons retrieve decode (i + m) 0 b hb, headersOf_zero]
  rw [e3, List.range'_concat]
  simp [Nat.add_assoc]

/-- Passes through the body up to the one that fills the chunk, when the select takes
the branch of the closed gate. -/
theorem readLoopFrom_batch_cancel (m fuel i : Nat) (chunk : List H) (d : List (List H))
    (c : List Nat) (hi : i + (m + 1) ≤ to_) (ht : to_ < uint64Mod)
    (hr : ∀ k, i ≤ k → k < i + (m + 1) → (retrieve k).isSome = true)
    (hc : chunk.length + (m + 1) = chunkSize) (hg : gate d.length = true) :
    readLoopFrom retrieve decode gate to_ (fuel + (m + 1)) i chunk d c =
      some ⟨d, false, c ++ List.range' i (m + 1)⟩ := by
  obtain ⟨b, hb⟩ := Option.isSome_iff_exists.mp (hr (i + m) (by omega) (by omega))
  have e : fuel + (m + 1) = (fuel + 1) + m := by omega
  rw [e, readLoopFrom_fill retrieve decode gate to_ m (fuel + 1) i chunk d c (by omega) ht
    (fun k h1 h2 => hr k h1 (by omega)) (by omega)]
  rw [readLoopFrom_cancel retrieve decode gate to_ fuel (i + m) _ d _ b (by omega) hb
    (by rw [List.length_append, headersOf_length retrieve decode i m
      (fun k h1 h2 => hr k h1 (by omega))]; omega) hg]
  rw [List.range'_concat]
  simp

/-- Delivery of `q` whole batches starting from an empty chunk. -/
theorem readLoopFrom_batches (q fuel i : Nat) (d : List (List H)) (c : List Nat)
    (hi : i + q * chunkSize ≤ to_) (ht : to_ < uint64Mod)
    (hr : ∀ k, i ≤ k → k < i + q * chunkSize → (retrieve k).isSome = true)
    (hg : ∀ j, d.length ≤ j → j < d.length + q → gate j = false) :
    readLoopFrom retrieve decode gate to_ (fuel + q * chunkSize) i [] d c =
      readLoopFrom retrieve decode gate to_ fuel (i + q * chunkSize) []
        (d ++ batchesOf retrieve decode i q) (c ++ List.range' i (q * chunkSize)) := by
  induction q generalizing i d c with
  | zero => simp [batchesOf]
  | succ q ih =>
    have hC : chunkSize = 2047 + 1 := rfl
    have hm : (q + 1) * chunkSize = q * chunkSize + chunkSize := Nat.succ_mul q chunkSize
    have e : fuel + (q + 1) * chunkSize = (fuel + q * chunkSize) + (2047 + 1) := by
      rw [hm, hC]; omega
    rw [e, readLoopFrom_batch retrieve decode gate to_ 2047 (fuel + q * chunkSize) i [] d c
      (by rw [hm, hC] at hi; omega) ht
      (fun k h1 h2 => hr k h1 (by rw [hm, hC]; omega)) (by simp [hC])
      (hg d.length (le_refl _) (by omega))]
    rw [ih (i + (2047 + 1)) (d ++ [[] ++ headersOf retrieve decode i (2047 + 1)])
      (c ++ List.range' i (2047 + 1)) (by rw [hm, hC] at hi; rw [hC]; omega)
      (fun k h1 h2 => hr k (by omega) (by rw [hm]; rw [hC] at h2 ⊢; omega))
      (fun j h1 h2 => hg j (by simp at h1; omega) (by simp at h1 h2; omega))]
    have e4 : i + (2047 + 1) + q * chunkSize = i + (q + 1) * chunkSize := by
      rw [hm]; rw [hC]; omega
    have e5 : List.range' i (2047 + 1) ++ List.range' (i + (2047 + 1)) (q * chunkSize) =
        List.range' i ((q + 1) * chunkSize) := by
      have := List.range'_append i (2047 + 1) (q * chunkSize) 1
      rw [Nat.one_mul] at this
      rw [this, hm, hC]
    rw [e4, List.append_assoc, List.append_assoc, e5]
    simp [batchesOf, hC]

/-- Whatever the oracles, the loop finishes within `to - i + 1` tests, and its
`Retrieve` calls are made at consecutive indices starting at `i`. -/
theorem readLoopFrom_total (fuel i : Nat) (chunk : List H) (d : List (List H))
    (c : List Nat) (hi : i ≤ to_) (ht : to_ < uint64Mod) (hf : to_ - i < fuel) :
    ∃ out m, readLoopFrom retrieve decode gate to_ fuel i chunk d c = some out ∧
      m ≤ to_ - i ∧ out.calls = c ++ List.range' i m := by
  induction fuel generalizing i chunk d c with
  | zero => omega
  | succ fuel ih =>
    by_cases hlt : i < to_
    · have hm : (i + 1) % uint64Mod = i + 1 := Nat.mod_eq_of_lt (by omega)
      have key : ∀ (ch : List H) (dd : List (List H)),
          ∃ out m, readLoopFrom retrieve decode gate to_ fuel (i + 1) ch dd (c ++ [i])
            = some out ∧ m ≤ to_ - i ∧ out.calls = c ++ List.range' i m := by
        intro ch dd
        obtain ⟨out, m, h1, h2, h3⟩ := ih (i + 1) ch dd (c ++ [i]) (by omega) (by omega)
        refine ⟨out, m + 1, h1, by omega, ?_⟩
        rw [h3, List.range'_succ]
        simp
      have one : ∃ out m, (some ⟨d, false, c ++ [i]⟩ : Option (ReadOut H)) = some out ∧
          m ≤ to_ - i ∧ out.calls = c ++ List.range' i m :=
        ⟨_, 1, rfl, by omega, by simp⟩
      simp only [readLoopFrom, hlt, if_true, hm]
      cases hit : readIter retrieve decode i chunk with
      | readError => exact one
      | more ch => exact key ch d
      | full hdrs =>
        by_cases hg : gate d.length = true
        · simp only [hg, if_true]; exact one
        · simp only [hg]; exact key [] (d ++ [hdrs])
    · exact ⟨_, 0, readLoopFrom_end retrieve decode gate to_ fuel i chunk d c hlt,
        by omega, by simp⟩

/-- With every retrieval succeeding and no select taking the gate branch, `readLoop`
delivers the whole groups of `chunkSize` headers of the range, makes one `Retrieve` call
per index and closes the channel. The last `(to - from) % chunkSize` headers are in the
chunk when the loop ends and are not sent. -/
theorem readLoop_all_ok (from_ : Nat) (hft : from_ ≤ to_) (ht : to_ < uint64Mod)
    (hr : ∀ k, from_ ≤ k → k < to_ → (retrieve k).isSome = true)
    (hg : ∀ j, gate j = false) :
    readLoop retrieve decode gate from_ to_ =
      some ⟨batchesOf retrieve decode from_ ((to_ - from_) / chunkSize), true,
        List.range' from_ (to_ - from_)⟩ := by
  have hC : 0 < chunkSize := by decide
  have hdm := Nat.div_add_mod (to_ - from_) chunkSize
  have hmod := Nat.mod_lt (to_ - from_) hC
  rw [Nat.mul_comm] at hdm
  generalize (to_ - from_) / chunkSize = q at hdm
  generalize hrdef : (to_ - from_) % chunkSize = r at hdm hmod
  have e : to_ - from_ + 1 = (1 + r) + q * chunkSize := by omega
  unfold readLoop
  rw [e, readLoopFrom_batches retrieve decode gate to_ q (1 + r) from_ [] [] (by omega) ht
    (fun k h1 h2 => hr k h1 (by omega)) (fun j _ _ => hg j)]
  rw [readLoopFrom_fill retrieve decode gate to_ r 1 (from_ + q * chunkSize) [] _ _
    (by omega) ht (fun k h1 h2 => hr k (by omega) (by omega)) (by simpa using hmod)]
  rw [readLoopFrom_end retrieve decode gate to_ 0 _ _ _ _ (by omega)]
  have e5 := List.range'_append from_ (q * chunkSize) r 1
  rw [Nat.one_mul] at e5
  have e6 : r + q * chunkSize = to_ - from_ := by omega
  rw [List.nil_append, List.nil_append, e5, e6]

/-- With a first retrieval failure at `k`, `readLoop` returns right after the failed
call: the channel is left open and the whole groups before `k` have been delivered. -/
theorem readLoop_first_error (from_ k : Nat) (hfk : from_ ≤ k) (hk : k < to_)
    (ht : to_ < uint64Mod)
    (hr : ∀ i, from_ ≤ i → i < k → (retrieve i).isSome = true)
    (hfail : retrieve k = none) (hg : ∀ j, gate j = false) :
    readLoop retrieve decode gate from_ to_ =
      some ⟨batchesOf retrieve decode from_ ((k - from_) / chunkSize), false,
        List.range' from_ (k - from_ + 1)⟩ := by
  have hC : 0 < chunkSize := by decide
  have hdm := Nat.div_add_mod (k - from_) chunkSize
  have hmod := Nat.mod_lt (k - from_) hC
  rw [Nat.mul_comm] at hdm
  generalize (k - from_) / chunkSize = q at hdm
  generalize hrdef : (k - from_) % chunkSize = r at hdm hmod
  have e : to_ - from_ + 1 = ((to_ - k + 1) + r) + q * chunkSize := by omega
  unfold readLoop
  rw [e, readLoopFrom_batches retrieve decode gate to_ q ((to_ - k + 1) + r) from_ [] []
    (by omega) ht (fun i h1 h2 => hr i h1 (by omega)) (fun j _ _ => hg j)]
  rw [readLoopFrom_fill retrieve decode gate to_ r (to_ - k + 1) (from_ + q * chunkSize) [] _ _
    (by omega) ht (fun i h1 h2 => hr i (by omega) (by omega)) (by simpa using hmod)]
  have e7 : from_ + q * chunkSize + r = k := by omega
  rw [e7, readLoopFrom_error retrieve decode gate to_ _ k _ _ _ hk hfail]
  have e5 := List.range'_append from_ (q * chunkSize) r 1
  rw [Nat.one_mul] at e5
  have e6 : r + q * chunkSize = k - from_ := by omega
  rw [List.nil_append, List.nil_append, e5, e6, List.range'_concat]
  simp [show from_ + (k - from_) = k by omega]

/-- When the select of delivery attempt `j + 1` takes the gate branch, the earlier ones
having delivered, `readLoop` returns with `j` batches delivered and the channel open. -/
theorem readLoop_cancel_at (from_ j : Nat) (hj : from_ + (j + 1) * chunkSize ≤ to_)
    (ht : to_ < uint64Mod)
    (hr : ∀ i, from_ ≤ i → i < from_ + (j + 1) * chunkSize → (retrieve i).isSome = true)
    (hopen : ∀ a, a < j → gate a = false) (hclosed : gate j = true) :
    readLoop retrieve decode gate from_ to_ =
      some ⟨batchesOf retrieve decode from_ j, false,
        List.range' from_ ((j + 1) * chunkSize)⟩ := by
  have hC : chunkSize = 2047 + 1 := rfl
  have hm : (j + 1) * chunkSize = j * chunkSize + chunkSize := Nat.succ_mul j chunkSize
  rw [hm] at hj hr
  have e : to_ - from_ + 1 =
      ((to_ - from_ - (j + 1) * chunkSize + 1) + (2047 + 1)) + j * chunkSize := by
    rw [hm, hC]; rw [hC] at hj; omega
  unfold readLoop
  rw [e, readLoopFrom_batches retrieve decode gate to_ j _ from_ [] [] (by omega) ht
    (fun i h1 h2 => hr i h1 (by omega)) (fun a _ h2 => hopen a (by simpa using h2))]
  rw [readLoopFrom_batch_cancel retrieve decode gate to_ 2047 _ (from_ + j * chunkSize) [] _ _
    (by rw [hC] at hj ⊢; omega) ht
    (fun i h1 h2 => hr i (by omega) (by rw [hC] at h2 ⊢; omega)) (by simp [hC])
    (by simpa [batchesOf_length] using hclosed)]
  have e5 := List.range'_append from_ (j * chunkSize) (2047 + 1) 1
  rw [Nat.one_mul] at e5
  have e6 : 2047 + 1 + j * chunkSize = (j + 1) * chunkSize := by rw [hm, hC]; omega
  rw [List.nil_append, List.nil_append, e5, e6]

/-- For every behaviour of `Retrieve` and of the select, `readLoop` returns, and its
`Retrieve` calls are made at the consecutive indices `from, from + 1, ...`. -/
theorem readLoop_total (from_ : Nat) (ht : to_ < uint64Mod) :
    ∃ out m, readLoop retrieve decode gate from_ to_ = some out ∧
      m ≤ to_ - from_ ∧ out.calls = List.range' from_ m := by
  by_cases hft : from_ ≤ to_
  · obtain ⟨out, m, h1, h2, h3⟩ := readLoopFrom_total retrieve decode gate to_
      (to_ - from_ + 1) from_ [] [] [] hft ht (by omega)
    exact ⟨out, m, h1, h2, by simpa using h3⟩
  · exact ⟨_, 0, readLoopFrom_end retrieve decode gate to_ _ from_ [] [] []
      (by omega), by omega, by simp⟩

end ReadLemmas

/-! ## Lemmas on writeLoop -/

section WriteLemmas

variable {H : Type} (env : ChainEnv)

theorem wrapInt64_add (a b : Int) : wrapInt64 (wrapInt64 a + b) = wrapInt64 (a + b) := by
  unfold wrapInt64
  omega

theorem wrapInt64_of_fits (a : Int) (h0 : 0 ≤ a) (h1 : a < 2 ^ 63) : wrapInt64 a = a := by
  unfold wrapInt64
  omega

theorem sumTo_succ (f : Nat → Int) (n : Nat) : sumTo f (n + 1) = sumTo f n + f n := by
  simp [sumTo, List.range_succ]

theorem sumTo_mono (f : Nat → Int) (n : Nat) (h : ∀ k, k < n → 0 ≤ f k) :
    ∀ i, i ≤ n → 0 ≤ sumTo f i ∧ sumTo f i ≤ sumTo f n := by
  induction n with
  | zero =>
    intro i hi
    have : i = 0 := by omega
    subst this
    simp [sumTo]
  | succ n ih =>
    intro i hi
    have hn := ih (fun k hk => h k (by omega))
    have hfn := h n (by omega)
    rw [sumTo_succ]
    rcases Nat.lt_or_ge i (n + 1) with h1 | h1
    · have := hn i (by omega)
      omega
    · have e : i = n + 1 := by omega
      subst e
      have := hn n (le_refl n)
      rw [sumTo_succ]
      omega

theorem lenSum_append (bs cs : List (List H)) : lenSum (bs ++ cs) = lenSum bs + lenSum cs := by
  simp [lenSum]

theorem lenSum_take_le (bs : List (List H)) (i : Nat) : lenSum (bs.take i) ≤ lenSum bs := by
  have h := lenSum_append (bs.take i) (bs.drop i)
  rw [List.take_append_drop] at h
  omega

/-- A writer that has returned ignores whatever the select could yield. -/
theorem foldl_writerRecv_returned (w : Writer H) (hw : w.pc = WriterPc.returned)
    (inputs : List (Recv H)) : inputs.foldl (writerRecv env) w = w := by
  induction inputs with
  | nil => rfl
  | cons r rest ih =>
    have : writerRecv env w r = w := by simp [writerRecv, hw]
    rw [List.foldl_cons, this, ih]

theorem writeLoop_append (inputs more : List (Recv H)) :
    writeLoop env (inputs ++ more) = more.foldl (writerRecv env) (writeLoop env inputs) := by
  simp [writeLoop, List.foldl_append]

/-- A batch that is validated and inserted without error extends the state. -/
theorem writeBatch_okState (bs : List (List H)) (b : List H)
    (hv : env.validateOk bs.length = true) (hi : env.insertOk bs.length = true) :
    writeBatch env (okState env bs) b = okState env (bs ++ [b]) := by
  have hx : ∀ i, i < bs.length → (bs ++ [b]).take (i + 1) = bs.take (i + 1) := by
    intro i hi
    exact List.take_append_of_le_length (by omega)
  have hx2 : (bs ++ [b]).take (bs.length + 1) = bs ++ [b] :=
    List.take_of_length_le (by simp)
  have hmod : (lenSum bs % uint64Mod + b.length) % uint64Mod =
      lenSum (bs ++ [b]) % uint64Mod := by
    rw [lenSum_append]
    simp [lenSum, Nat.add_mod]
  have hxs : List.map (fun i => ((lenSum ((bs ++ [b]).take (i + 1)) % uint64Mod : Nat) : Int))
      (List.range bs.length) =
      List.map (fun i => ((lenSum (bs.take (i + 1)) % uint64Mod : Nat) : Int))
        (List.range bs.length) := by
    apply List.map_congr_left
    intro i hi
    rw [hx i (List.mem_range.mp hi)]
  simp only [writeBatch, okState, Writer.ret, hv, hi, Bool.not_true, Bool.false_eq_true,
    if_false, wrapInt64_add, List.length_append, List.length_singleton, List.range_succ,
    List.map_append, List.map_singleton, List.flatten_append, sumTo_succ, hmod, hxs, hx2]
  simp

/-- State of `writeLoop` after a successful set-up and a run of batches without error. -/
theorem writeLoop_all_ok (bs : List (List H)) (hgen : env.genesisOk = true)
    (hch : env.chainOk = true)
    (hok : ∀ i, i < bs.length → env.validateOk i = true ∧ env.insertOk i = true) :
    writeLoop env (bs.map Recv.batch) = okState env bs := by
  induction bs using List.reverseRecOn with
  | nil => simp [writeLoop, writerStart, hgen, hch, okState, Writer.init, sumTo, lenSum, wrapInt64]
  | append_singleton bs b ih =>
    have hok2 : ∀ i, i < bs.length → env.validateOk i = true ∧ env.insertOk i = true :=
      fun i h => hok i (by simp; omega)
    have hlast := hok bs.length (by simp)
    rw [List.map_append, writeLoop_append, ih hok2]
    simp only [List.map_singleton, List.foldl_cons, List.foldl_nil]
    have hpc : (okState env bs).pc = WriterPc.recv := rfl
    simp only [writerRecv, hpc]
    exact writeBatch_okState env bs b hlast.1 hlast.2

/-- A batch on which validation or insertion fails: the calls are recorded, nothing
else changes, and `writeLoop` returns. -/
theorem writeBatch_fail (w : Writer H) (b : List H)
    (hfail : (env.validateOk w.validated.length && env.insertOk w.validated.length) = false) :
    writeBatch env w b =
      { w with
        pc := WriterPc.returned
        validated := w.validated ++ [b]
        inserted := if env.validateOk w.validated.length then w.inserted ++ [b]
          else w.inserted } := by
  cases hv : env.validateOk w.validated.length
  · simp [writeBatch, Writer.ret, hv]
  · have hi : env.insertOk w.validated.length = false := by simpa [hv] using hfail
    simp [writeBatch, Writer.ret, hv, hi]

theorem take_succ_eq_append (bs : List (List H)) (j : Nat) (hj : j < bs.length) :
    bs.take (j + 1) = bs.take j ++ [bs.get ⟨j, hj⟩] := by
  rw [List.take_succ]
  simp [List.getElem?_eq_getElem hj]

/-- State of `writeLoop` when the first failure occurs on batch `j`. -/
theorem writeLoop_fail_state (bs : List (List H)) (j : Nat) (hj : j < bs.length)
    (hgen : env.genesisOk = true) (hch : env.chainOk = true)
    (hok : ∀ i, i < j → env.validateOk i = true ∧ env.insertOk i = true)
    (hfail : (env.validateOk j && env.insertOk j) = false) :
    writeLoop env ((bs.take (j + 1)).map Recv.batch) =
      { okState env (bs.take j) with
        pc := WriterPc.returned
        validated := bs.take (j + 1)
        inserted := if env.validateOk j then bs.take (j + 1) else bs.take j } := by
  have hlen : (bs.take j).length = j := by simp; omega
  have hpre := writeLoop_all_ok env (bs.take j) hgen hch (by rw [hlen]; exact hok)
  rw [take_succ_eq_append bs j hj, List.map_append, writeLoop_append, hpre]
  simp only [List.map_singleton, List.foldl_cons, List.foldl_nil]
  have hpc : (okState env (bs.take j)).pc = WriterPc.recv := rfl
  have hvl : (okState env (bs.take j)).validated.length = j := hlen
  simp only [writerRecv, hpc]
  rw [writeBatch_fail env _ _ (by rw [hvl]; exact hfail), hvl]
  rfl

end WriteLemmas

/-! ## Lemmas on the pipeline -/

section PipelineLemmas

variable {B H : Type} (retrieve : Nat → Option B) (decode : B → H) (env : ChainEnv)

theorem headersOf_map_some (a n : Nat)
    (h : ∀ k, a ≤ k → k < a + n → (retrieve k).isSome = true) :
    (headersOf retrieve decode a n).map some =
      (List.range' a n).map (headerAt retrieve decode) := by
  induction n generalizing a with
  | zero => rfl
  | succ n ih =>
    obtain ⟨b, hb⟩ := Option.isSome_iff_exists.mp (h a (le_refl a) (by omega))
    rw [headersOf_cons retrieve decode a n b hb, List.range'_succ, List.map_cons,
      List.map_cons, ih (a + 1) (fun k h1 h2 => h k (by omega) (by omega))]
    simp [headerAt, hb]

theorem headersOf_snoc (a n : Nat) (b : B) (hb : retrieve (a + n) = some b) :
    headersOf retrieve decode a (n + 1) = headersOf retrieve decode a n ++ [decode b] := by
  rw [headersOf_add, headersOf_cons retrieve decode (a + n) 0 b hb, headersOf_zero]

theorem inv_init (from_ to_ : Nat) :
    Inv retrieve decode from_ to_ (System.init H from_) := by
  refine ⟨0, 0, le_refl 0, ?_, fun _ => rfl, ?_⟩
  · simp [System.init, Writer.init, headersOf]
  · simp only [System.init]
    refine ⟨by simp, by simp [headersOf], by simp [chunkSize], by omega, ?_⟩
    intro k h1 h2
    omega

/-- What can happen to the committed headers and the program point when a batch is
processed. -/
theorem writeBatch_cases (w : Writer H) (hdrs : List H) :
    ((writeBatch env w hdrs).pc = WriterPc.returned ∧
        (writeBatch env w hdrs).committed = w.committed) ∨
      ((writeBatch env w hdrs).pc = w.pc ∧
        (writeBatch env w hdrs).committed = w.committed ++ hdrs) := by
  cases hv : env.validateOk w.validated.length
  · left; simp [writeBatch, Writer.ret, hv]
  · cases hi : env.insertOk w.validated.length
    · left; simp [writeBatch, Writer.ret, hv, hi]
    · right; simp [writeBatch, hv, hi]

theorem inv_step (from_ to_ : Nat) (ht : to_ < uint64Mod) (s s' : System H) (e : Event)
    (hinv : Inv retrieve decode from_ to_ s)
    (hs : step retrieve decode env to_ s e = some s') :
    Inv retrieve decode from_ to_ s' := by
  obtain ⟨q, q', hqq, hcom, hpc, hrd⟩ := hinv
  have hC : chunkSize = 2048 := rfl
  cases e with
  | read =>
    cases hr : s.reader with
    | loop i chunk =>
      rw [hr] at hrd
      obtain ⟨hi, hchunk, hlen, hmax, hsome⟩ := hrd
      simp only [step, hr] at hs
      by_cases hlt : i < to_
      · have hm : (i + 1) % uint64Mod = i + 1 := Nat.mod_eq_of_lt (by omega)
        simp only [hlt, if_true, readIter] at hs
        cases hret : retrieve i with
        | none =>
          simp only [hret, Option.some.injEq] at hs
          subst hs
          exact ⟨q, q', hqq, hcom, hpc, by omega, fun k h1 h2 => hsome k h1 (by omega)⟩
        | some b =>
          have hnew : chunk ++ [decode b] =
              headersOf retrieve decode (from_ + q * chunkSize) (chunk.length + 1) := by
            rw [headersOf_snoc retrieve decode _ _ b (by rw [← hi]; exact hret), ← hchunk]
          have hsome2 : ∀ k, from_ ≤ k → k ≤ i → (retrieve k).isSome = true := by
            intro k h1 h2
            rcases Nat.lt_or_ge k i with h3 | h3
            · exact hsome k h1 h3
            · have : k = i := by omega
              subst this
              simp [hret]
          simp only [hret, List.length_append, List.length_singleton] at hs
          by_cases hfull : chunkSize ≤ chunk.length + 1
          · have hl : chunk.length + 1 = chunkSize := by omega
            have htake : List.take chunkSize (chunk ++ [decode b]) = chunk ++ [decode b] :=
              List.take_of_length_le (by simp [hl])
            simp only [ge_iff_le, hfull, if_true, htake, Option.some.injEq] at hs
            subst hs
            refine ⟨q, q', hqq, hcom, hpc, ?_⟩
            simp only
            refine ⟨by rw [Nat.succ_mul]; omega, by rw [hnew, hl], hlt, hsome2⟩
          · simp only [ge_iff_le, hfull, if_false, hm, Option.some.injEq] at hs
            subst hs
            refine ⟨q, q', hqq, hcom, hpc, ?_⟩
            simp only
            refine ⟨by simp; omega, by simpa using hnew, by simp; omega, by omega, ?_⟩
            intro k h1 h2
            exact hsome2 k h1 (by omega)
      · simp only [hlt, if_false, Option.some.injEq] at hs
        subst hs
        exact ⟨q, q', hqq, hcom, hpc, by omega, fun k h1 h2 => hsome k h1 (by omega)⟩
    | select i hdrs => simp [step, hr] at hs
    | returned c => simp [step, hr] at hs
  | writerInit =>
    simp only [step] at hs
    cases hp : s.writer.pc with
    | start =>
      simp only [hp, Option.some.injEq] at hs
      subst hs
      have hq : q' = q := hpc (by simp [hp])
      refine ⟨q, q', hqq, ?_, fun _ => hq, hrd⟩
      rw [← hcom]
      unfold writerStart Writer.ret
      split <;> [rfl; (split <;> rfl)]
    | recv => simp [hp] at hs
    | returned => simp [hp] at hs
  | handoff =>
    simp only [step] at hs
    cases hr : s.reader with
    | loop i chunk => simp [hr] at hs
    | returned c => simp [hr] at hs
    | select i hdrs =>
      cases hp : s.writer.pc with
      | start => simp [hr, hp] at hs
      | returned => simp [hr, hp] at hs
      | recv =>
        rw [hr] at hrd
        obtain ⟨hi, hhdrs, hlt, hsome⟩ := hrd
        have hm : (i + 1) % uint64Mod = i + 1 := Nat.mod_eq_of_lt (by omega)
        have hq : q' = q := hpc (by simp [hp])
        simp only [hr, hp, hm, Option.some.injEq, writerRecv] at hs
        subst hs
        have hrd' : (i + 1 = from_ + (q + 1) * chunkSize + ([] : List H).length ∧
            ([] : List H) = headersOf retrieve decode (from_ + (q + 1) * chunkSize)
              ([] : List H).length ∧
            ([] : List H).length < chunkSize ∧ i + 1 ≤ max from_ to_ ∧
            ∀ k, from_ ≤ k → k < i + 1 → (retrieve k).isSome = true) :=
          ⟨by simpa using hi, by simp [headersOf], by simp [chunkSize], by omega,
            fun k h1 h2 => hsome k h1 (by omega)⟩
        rcases writeBatch_cases env s.writer hdrs with ⟨h1, h2⟩ | ⟨h1, h2⟩
        · refine ⟨q + 1, q', by omega, by simp only; rw [h2, hcom], ?_, hrd'⟩
          intro hne
          exact absurd h1 hne
        · refine ⟨q + 1, q' + 1, by omega, ?_, fun _ => by omega, hrd'⟩
          simp only
          rw [h2, hcom, hhdrs, hq, Nat.succ_mul, headersOf_add]
  | recvClosed =>
    simp only [step] at hs
    cases hr : s.reader with
    | loop i chunk => simp [hr] at hs
    | select i hdrs => simp [hr] at hs
    | returned c =>
      cases c with
      | false => simp [hr] at hs
      | true =>
        cases hp : s.writer.pc with
        | start => simp [hr, hp] at hs
        | returned => simp [hr, hp] at hs
        | recv =>
          simp only [hr, hp, Option.some.injEq, writerRecv] at hs
          subst hs
          refine ⟨q, q', hqq, hcom, fun h => absurd rfl h, ?_⟩
          simp only [hr]
          rw [hr] at hrd
          exact hrd
  | interrupt =>
    simp only [step] at hs
    cases hg : s.gateClosed with
    | true => simp [hg] at hs
    | false =>
      simp only [hg, Bool.false_eq_true, if_false, Option.some.injEq] at hs
      subst hs
      exact ⟨q, q', hqq, hcom, hpc, hrd⟩
  | readerCancel =>
    simp only [step] at hs
    cases hr : s.reader with
    | loop i chunk => simp [hr] at hs
    | returned c => simp [hr] at hs
    | select i hdrs =>
      cases hg : s.gateClosed with
      | false => simp [hr, hg] at hs
      | true =>
        rw [hr] at hrd
        obtain ⟨hi, hhdrs, hlt, hsome⟩ := hrd
        simp only [hr, hg, Option.some.injEq] at hs
        subst hs
        refine ⟨q, q', hqq, hcom, hpc, ?_⟩
        simp only
        rw [Nat.succ_mul] at hi
        exact ⟨by omega, fun k h1 h2 => hsome k h1 (by omega)⟩
  | writerCancel =>
    simp only [step] at hs
    cases hp : s.writer.pc with
    | start => simp [hp] at hs
    | returned => simp [hp] at hs
    | recv =>
      cases hg : s.gateClosed with
      | false => simp [hp, hg] at hs
      | true =>
        simp only [hp, hg, Option.some.injEq, writerRecv, Writer.ret] at hs
        subst hs
        exact ⟨q, q', hqq, hcom, fun h => absurd rfl h, hrd⟩

theorem inv_run (from_ to_ : Nat) (ht : to_ < uint64Mod) (es : List Event) :
    ∀ s s' : System H, Inv retrieve decode from_ to_ s →
      run retrieve decode env to_ s es = some s' → Inv retrieve decode from_ to_ s' := by
  induction es with
  | nil =>
    intro s s' hinv hrun
    simp only [run, Option.some.injEq] at hrun
    subst hrun
    exact hinv
  | cons e es ih =>
    intro s s' hinv hrun
    simp only [run] at hrun
    cases hst : step retrieve decode env to_ s e with
    | none => simp [hst] at hrun
    | some s1 =>
      simp only [hst] at hrun
      exact ih s1 s' (inv_step retrieve decode env from_ to_ ht s s1 e hinv hst) hrun

/-- The committed headers of a state satisfying the invariant are those of the first
`m` indices of the range. -/
theorem inv_committed (from_ to_ : Nat) (s : System H)
    (hinv : Inv retrieve decode from_ to_ s) :
    ∃ m, m ≤ to_ - from_ ∧
      s.writer.committed.map some =
        (List.range' from_ m).map (headerAt retrieve decode) := by
  obtain ⟨q, q', hqq, hcom, _, hrd⟩ := hinv
  have hle : q' * chunkSize ≤ q * chunkSize := Nat.mul_le_mul_right _ hqq
  have key : from_ + q * chunkSize ≤ max from_ to_ ∧
      ∀ k, from_ ≤ k → k < from_ + q * chunkSize → (retrieve k).isSome = true := by
    cases hr : s.reader with
    | loop i chunk =>
      rw [hr] at hrd
      obtain ⟨hi, _, _, hmax, hsome⟩ := hrd
      exact ⟨by omega, fun k h1 h2 => hsome k h1 (by omega)⟩
    | select i hdrs =>
      rw [hr] at hrd
      obtain ⟨hi, _, hlt, hsome⟩ := hrd
      rw [Nat.succ_mul] at hi
      exact ⟨by omega, fun k h1 h2 => hsome k h1 (by omega)⟩
    | returned c =>
      rw [hr] at hrd
      exact hrd
  refine ⟨q' * chunkSize, by omega, ?_⟩
  rw [hcom]
  exact headersOf_map_some retrieve decode from_ _ (fun k h1 h2 => key.2 k h1 (by omega))

theorem run_append (to_ : Nat) (es fs : List Event) (s : System H) :
    run retrieve decode env to_ s (es ++ fs) =
      (run retrieve decode env to_ s es).bind (fun s1 => run retrieve decode env to_ s1 fs) := by
  induction es generalizing s with
  | nil => rfl
  | cons e es ih =>
    simp only [List.cons_append, run]
    cases step retrieve decode env to_ s e with
    | none => rfl
    | some s1 => exact ih s1

/-- Reads that leave the chunk short of `chunkSize`, in the pipeline. -/
theorem run_reads (to_ m i : Nat) (chunk : List H) (w : Writer H) (g : Bool)
    (hi : i + m ≤ to_) (ht : to_ < uint64Mod)
    (hr : ∀ k, i ≤ k → k < i + m → (retrieve k).isSome = true)
    (hc : chunk.length + m < chunkSize) :
    run retrieve decode env to_ ⟨Reader.loop i chunk, w, g⟩ (List.replicate m Event.read) =
      some ⟨Reader.loop (i + m) (chunk ++ headersOf retrieve decode i m), w, g⟩ := by
  induction m generalizing i chunk with
  | zero => simp [run, headersOf]
  | succ m ih =>
    obtain ⟨b, hb⟩ := Option.isSome_iff_exists.mp (hr i (le_refl i) (by omega))
    have hlt : i < to_ := by omega
    have hm : (i + 1) % uint64Mod = i + 1 := Nat.mod_eq_of_lt (by omega)
    have hlen : ¬ chunkSize ≤ chunk.length + 1 := by omega
    have hstep : step retrieve decode env to_ ⟨Reader.loop i chunk, w, g⟩ Event.read =
        some ⟨Reader.loop (i + 1) (chunk ++ [decode b]), w, g⟩ := by
      simp [step, hlt, readIter, hb, hm, hlen]
    rw [List.replicate_succ, run, hstep]
    simp only
    rw [ih (i + 1) (chunk ++ [decode b]) (by omega)
      (fun k h1 h2 => hr k (by omega) (by omega)) (by simp; omega),
      headersOf_cons retrieve decode i m b hb]
    simp [Nat.add_assoc, Nat.add_comm 1 m]

/-- The pipeline does commit: after the set-up of the writer, `chunkSize` reads and one
hand-over on which validation and insertion succeed, the committed headers are those of
the first `chunkSize` indices of the range. -/
theorem run_first_batch (from_ to_ : Nat) (hft : from_ + chunkSize ≤ to_)
    (ht : to_ < uint64Mod)
    (hr : ∀ k, from_ ≤ k → k < from_ + chunkSize → (retrieve k).isSome = true)
    (hgen : env.genesisOk = true) (hch : env.chainOk = true)
    (hv : env.validateOk 0 = true) (hins : env.insertOk 0 = true) :
    ∃ s, run retrieve decode env to_ (System.init H from_)
        (Event.writerInit :: (List.replicate chunkSize Event.read ++ [Event.handoff])) =
          some s ∧
      s.writer.committed = headersOf retrieve decode from_ chunkSize ∧
      s.writer.committed.length = chunkSize := by
  have hC : chunkSize = 2047 + 1 := rfl
  obtain ⟨b, hb⟩ := Option.isSome_iff_exists.mp
    (hr (from_ + 2047) (by omega) (by rw [hC]; omega))
  have hlen := headersOf_length retrieve decode from_ 2047
    (fun k h1 h2 => hr k h1 (by rw [hC]; omega))
  have hfull := headersOf_length retrieve decode from_ chunkSize hr
  have hw0 : writerStart env (Writer.init H) =
      ⟨WriterPc.recv, 0, 0, 0, [], [], [], [], [], [], none⟩ := by
    simp [writerStart, hgen, hch, Writer.init]
  have hinit : step retrieve decode env to_ (System.init H from_) Event.writerInit =
      some ⟨Reader.loop from_ [], ⟨WriterPc.recv, 0, 0, 0, [], [], [], [], [], [], none⟩,
        false⟩ := by
    simp only [step, System.init]
    rw [hw0]
    rfl
  have hlast : step retrieve decode env to_
      ⟨Reader.loop (from_ + 2047) ([] ++ headersOf retrieve decode from_ 2047),
        ⟨WriterPc.recv, 0, 0, 0, [], [], [], [], [], [], none⟩, false⟩ Event.read =
      some ⟨Reader.select (from_ + 2047) (headersOf retrieve decode from_ chunkSize),
        ⟨WriterPc.recv, 0, 0, 0, [], [], [], [], [], [], none⟩, false⟩ := by
    have hlt : from_ + 2047 < to_ := by rw [hC] at hft; omega
    have hge : chunkSize ≤ (headersOf retrieve decode from_ 2047).length + 1 := by
      rw [hlen, hC]
    have hsn : headersOf retrieve decode from_ 2047 ++ [decode b] =
        headersOf retrieve decode from_ chunkSize := by
      rw [hC, headersOf_snoc retrieve decode from_ 2047 b hb]
    have htake : List.take chunkSize (headersOf retrieve decode from_ chunkSize) =
        headersOf retrieve decode from_ chunkSize :=
      List.take_of_length_le (by rw [hfull])
    simp [step, hlt, readIter, hb, hsn, htake, hfull]
  have hreads := run_reads retrieve decode env to_ 2047 from_ []
    ⟨WriterPc.recv, 0, 0, 0, [], [], [], [], [], [], none⟩ false
    (by rw [hC] at hft; omega) ht (fun k h1 h2 => hr k h1 (by rw [hC]; omega))
    (by simp [hC])
  have hsplit : List.replicate chunkSize Event.read ++ [Event.handoff] =
      List.replicate 2047 Event.read ++ [Event.read, Event.handoff] := by
    rw [hC, List.replicate_succ', List.append_assoc]
    rfl
  have htail : run retrieve decode env to_
      ⟨Reader.loop (from_ + 2047) ([] ++ headersOf retrieve decode from_ 2047),
        ⟨WriterPc.recv, 0, 0, 0, [], [], [], [], [], [], none⟩, false⟩
      [Event.read, Event.handoff] =
      some ⟨Reader.loop ((from_ + 2047 + 1) % uint64Mod) [],
        writerRecv env ⟨WriterPc.recv, 0, 0, 0, [], [], [], [], [], [], none⟩
          (Recv.batch (headersOf retrieve decode from_ chunkSize)), false⟩ := by
    rw [run, hlast]
    rfl
  refine ⟨⟨Reader.loop ((from_ + 2047 + 1) % uint64Mod) [],
    writerRecv env ⟨WriterPc.recv, 0, 0, 0, [], [], [], [], [], [], none⟩
      (Recv.batch (headersOf retrieve decode from_ chunkSize)), false⟩, ?_, ?_, ?_⟩
  · rw [run, hinit]
    simp only
    rw [hsplit, run_append, hreads]
    exact htail
  · simp [writerRecv, writeBatch, hv, hins]
  · simp [writerRecv, writeBatch, hv, hins, hfull]

end PipelineLemmas

/-! ## Properties of writeLoop -/

/-- C5: when `writeLoop`, set up without error, receives the batches `bs` followed by
anything else, and the first failure of `ValidateHeaderChain` or `InsertHeaderChain`
occurs on batch `j`, then it returns at that failure (the final state is the one reached
after batch `j`, whatever follows): the batches validated are those up to `j`, the
batches passed to `InsertHeaderChain` are those before `j` and, only when validation of
batch `j` succeeded, batch `j`; the committed headers are those of the batches before
`j`; the three series have `j` samples; and `render` is not called. -/
theorem writeLoop_first_failure {H : Type} (env : ChainEnv) (bs : List (List H))
    (rest : List (Recv H)) (j : Nat)
    (hgen : env.genesisOk = true) (hch : env.chainOk = true) (hj : j < bs.length)
    (hok : ∀ i, i < j → env.validateOk i = true ∧ env.insertOk i = true)
    (hfail : (env.validateOk j && env.insertOk j) = false) :
    writeLoop env (bs.map Recv.batch ++ rest) =
        writeLoop env ((bs.take (j + 1)).map Recv.batch) ∧
      (writeLoop env (bs.map Recv.batch ++ rest)).pc = WriterPc.returned ∧
      (writeLoop env (bs.map Recv.batch ++ rest)).validated = bs.take (j + 1) ∧
      (writeLoop env (bs.map Recv.batch ++ rest)).inserted =
        (if env.validateOk j then bs.take (j + 1) else bs.take j) ∧
      (writeLoop env (bs.map Recv.batch ++ rest)).committed = (bs.take j).flatten ∧
      (writeLoop env (bs.map Recv.batch ++ rest)).xVals.length = j ∧
      (writeLoop env (bs.map Recv.batch ++ rest)).validationTimes.length = j ∧
      (writeLoop env (bs.map Recv.batch ++ rest)).writeTimes.length = j ∧
      (writeLoop env (bs.map Recv.batch ++ rest)).rendered = none := by
  have hst := writeLoop_fail_state env bs j hj hgen hch hok hfail
  have hlen : (bs.take j).length = j := by simp; omega
  have hsplit : bs.map Recv.batch ++ rest =
      (bs.take (j + 1)).map Recv.batch ++ ((bs.drop (j + 1)).map Recv.batch ++ rest) := by
    rw [← List.append_assoc, ← List.map_append, List.take_append_drop]
  have heq : writeLoop env (bs.map Recv.batch ++ rest) =
      writeLoop env ((bs.take (j + 1)).map Recv.batch) := by
    rw [hsplit, writeLoop_append]
    exact foldl_writerRecv_returned env _ (by rw [hst]) _
  rw [heq, hst]
  refine ⟨rfl, rfl, rfl, rfl, rfl, ?_, ?_, ?_, rfl⟩ <;> simp [okState, hlen]

/-- An instance of `writeLoop_first_failure`: validation fails on the second of three
batches, and the channel is closed afterwards. -/
theorem writeLoop_first_failure_witness :
    writeLoop ⟨true, true, fun i => i != 1, fun _ => true, fun _ => 0, fun _ => 0⟩
        ([[10], [20], [30]].map Recv.batch ++ [Recv.closed]) =
        writeLoop ⟨true, true, fun i => i != 1, fun _ => true, fun _ => 0, fun _ => 0⟩
          (([[10], [20], [30]].take (1 + 1)).map Recv.batch) ∧
      (writeLoop ⟨true, true, fun i => i != 1, fun _ => true, fun _ => 0, fun _ => 0⟩
        ([[10], [20], [30]].map Recv.batch ++ [Recv.closed])).pc = WriterPc.returned ∧
      (writeLoop ⟨true, true, fun i => i != 1, fun _ => true, fun _ => 0, fun _ => 0⟩
        ([[10], [20], [30]].map Recv.batch ++ [Recv.closed])).validated =
          [[10], [20], [30]].take (1 + 1) ∧
      (writeLoop ⟨true, true, fun i => i != 1, fun _ => true, fun _ => 0, fun _ => 0⟩
        ([[10], [20], [30]].map Recv.batch ++ [Recv.closed])).inserted =
          (if (1 != 1) = true then [[10], [20], [30]].take (1 + 1)
            else [[10], [20], [30]].take 1) ∧
      (writeLoop ⟨true, true, fun i => i != 1, fun _ => true, fun _ => 0, fun _ => 0⟩
        ([[10], [20], [30]].map Recv.batch ++ [Recv.closed])).committed =
          ([[10], [20], [30]].take 1).flatten ∧
      (writeLoop ⟨true, true, fun i => i != 1, fun _ => true, fun _ => 0, fun _ => 0⟩
        ([[10], [20], [30]].map Recv.batch ++ [Recv.closed])).xVals.length = 1 ∧
      (writeLoop ⟨true, true, fun i => i != 1, fun _ => true, fun _ => 0, fun _ => 0⟩
        ([[10], [20], [30]].map Recv.batch ++ [Recv.closed])).validationTimes.length = 1 ∧
      (writeLoop ⟨true, true, fun i => i != 1, fun _ => true, fun _ => 0, fun _ => 0⟩
        ([[10], [20], [30]].map Recv.batch ++ [Recv.closed])).writeTimes.length = 1 ∧
      (writeLoop ⟨true, true, fun i => i != 1, fun _ => true, fun _ => 0, fun _ => 0⟩
        ([[10], [20], [30]].map Recv.batch ++ [Recv.closed])).rendered = none :=
  writeLoop_first_failure
    ⟨true, true, fun i => i != 1, fun _ => true, fun _ => 0, fun _ => 0⟩
    [[10], [20], [30]] [Recv.closed] 1 rfl rfl (by decide)
    (fun i hi => by
      have h0 : i = 0 := by omega
      subst h0
      exact ⟨rfl, rfl⟩)
    rfl

/-- C6: after a successful set-up and `n` batches `bs` validated and inserted without
error, each of `xVals`, `validationTimes` and `writeTimes` has `n` entries; and when the
durations are non-negative with totals that fit `time.Duration` and there are at most
`2^53` headers in all (so that no counter wraps and `float64` is exact), entry `i`
(from 0) is the number of headers of the first `i + 1` batches, resp. the sum of the
first `i + 1` validation (resp. write) durations divided by 1,000,000. Moreover on the
range from 1 to 4097 `readLoop` delivers batches that give `xVals = [2048, 4096]` and
two samples in each series, passed to `render` when the channel is closed. -/
theorem writeLoop_series {B H : Type} (env : ChainEnv)
    (hgen : env.genesisOk = true) (hch : env.chainOk = true) :
    (∀ bs : List (List H),
      (∀ i, i < bs.length → env.validateOk i = true ∧ env.insertOk i = true) →
      (writeLoop env (bs.map Recv.batch)).xVals.length = bs.length ∧
      (writeLoop env (bs.map Recv.batch)).validationTimes.length = bs.length ∧
      (writeLoop env (bs.map Recv.batch)).writeTimes.length = bs.length ∧
      ((∀ i, i < bs.length → 0 ≤ env.vTime i ∧ 0 ≤ env.wTime i) →
        sumTo env.vTime bs.length < 2 ^ 63 → sumTo env.wTime bs.length < 2 ^ 63 →
        lenSum bs ≤ 2 ^ 53 →
        ∀ i, i < bs.length →
          (writeLoop env (bs.map Recv.batch)).xVals[i]? =
            some ((lenSum (bs.take (i + 1)) : Nat) : Int) ∧
          (writeLoop env (bs.map Recv.batch)).validationTimes[i]? =
            some (sumTo env.vTime (i + 1) / 1000000) ∧
          (writeLoop env (bs.map Recv.batch)).writeTimes[i]? =
            some (sumTo env.wTime (i + 1) / 1000000))) ∧
    (∀ (retrieve : Nat → Option B) (decode : B → H),
      (∀ k, 1 ≤ k → k < 4097 → (retrieve k).isSome = true) →
      (∀ i, i < 2 → env.validateOk i = true ∧ env.insertOk i = true) →
      ∃ out, readLoop retrieve decode gateOpen 1 4097 = some out ∧
        out.delivered.length = 2 ∧
        (writeLoop env (out.delivered.map Recv.batch ++ [Recv.closed])).xVals =
          [2048, 4096] ∧
        (writeLoop env (out.delivered.map Recv.batch ++ [Recv.closed])).validationTimes.length
          = 2 ∧
        (writeLoop env (out.delivered.map Recv.batch ++ [Recv.closed])).writeTimes.length
          = 2 ∧
        (writeLoop env (out.delivered.map Recv.batch ++ [Recv.closed])).rendered =
          some ((writeLoop env (out.delivered.map Recv.batch ++ [Recv.closed])).xVals,
            (writeLoop env (out.delivered.map Recv.batch ++ [Recv.closed])).writeTimes,
            (writeLoop env (out.delivered.map Recv.batch ++ [Recv.closed])).validationTimes))
    := by
  constructor
  · intro bs hok
    rw [writeLoop_all_ok env bs hgen hch hok]
    refine ⟨by simp [okState], by simp [okState], by simp [okState], ?_⟩
    intro hnn hv hw hl i hi
    have hvm := sumTo_mono env.vTime bs.length (fun k hk => (hnn k hk).1) (i + 1) (by omega)
    have hwm := sumTo_mono env.wTime bs.length (fun k hk => (hnn k hk).2) (i + 1) (by omega)
    have hlm := lenSum_take_le bs (i + 1)
    have hmod : lenSum (bs.take (i + 1)) % uint64Mod = lenSum (bs.take (i + 1)) :=
      Nat.mod_eq_of_lt (by unfold uint64Mod; omega)
    have hvw := wrapInt64_of_fits (sumTo env.vTime (i + 1)) hvm.1 (by omega)
    have hww := wrapInt64_of_fits (sumTo env.wTime (i + 1)) hwm.1 (by omega)
    have hms : millisecond = 1000000 := rfl
    refine ⟨?_, ?_, ?_⟩
    · simp only [okState, List.getElem?_map, List.getElem?_range hi, Option.map_some', hmod]
    · simp only [okState, List.getElem?_map, List.getElem?_range hi, Option.map_some', hvw, hms]
      rw [Int.tdiv_eq_ediv hvm.1 (by decide)]
    · simp only [okState, List.getElem?_map, List.getElem?_range hi, Option.map_some', hww, hms]
      rw [Int.tdiv_eq_ediv hwm.1 (by decide)]
  · intro retrieve decode hr hok
    have h := readLoop_all_ok retrieve decode gateOpen 4097 1 (by decide)
      (by simp [uint64Mod]) hr (fun _ => rfl)
    have e : (4097 - 1) / chunkSize = 2 := by decide
    rw [e] at h
    have hbl : (batchesOf retrieve decode 1 2).length = 2 := batchesOf_length _ _ _ _
    have hmem := batchesOf_mem_length retrieve decode 1 2
      (fun k h1 h2 => hr k h1 (by have : chunkSize = 2048 := rfl; omega))
    have hst := writeLoop_all_ok env (batchesOf retrieve decode 1 2) hgen hch
      (by rw [hbl]; exact hok)
    have h0 : (headersOf retrieve decode 1 chunkSize).length = 2048 :=
      hmem _ (by simp [batchesOf])
    have h1 : (headersOf retrieve decode (1 + chunkSize) chunkSize).length = 2048 :=
      hmem _ (by simp [batchesOf])
    have hpc : (okState env (batchesOf retrieve decode 1 2)).pc = WriterPc.recv := rfl
    have hfin : writeLoop env ((batchesOf retrieve decode 1 2).map Recv.batch ++ [Recv.closed])
        = { okState env (batchesOf retrieve decode 1 2) with
            rendered := some ((okState env (batchesOf retrieve decode 1 2)).xVals,
              (okState env (batchesOf retrieve decode 1 2)).writeTimes,
              (okState env (batchesOf retrieve decode 1 2)).validationTimes)
            pc := WriterPc.returned } := by
      simp only [writeLoop_append, hst, List.foldl_cons, List.foldl_nil, writerRecv, hpc]
    refine ⟨_, h, hbl, ?_⟩
    simp only [hfin]
    refine ⟨?_, by simp [okState, hbl], by simp [okState, hbl], trivial⟩
    simp [okState, batchesOf, lenSum, List.range_succ, h0, h1, uint64Mod]

/-- An instance of `writeLoop_series`: two batches of one header each, with durations
of 1.5 ms and 0.7 ms per batch, and the range from 1 to 4097 of `idArchive`. -/
theorem writeLoop_series_witness :
    ((writeLoop ⟨true, true, fun _ => true, fun _ => true, fun _ => 1500000,
        fun _ => 700000⟩ ([[7], [8]].map Recv.batch)).xVals[1]? = some 2 ∧
      (writeLoop ⟨true, true, fun _ => true, fun _ => true, fun _ => 1500000,
        fun _ => 700000⟩ ([[7], [8]].map Recv.batch)).validationTimes[1]? = some 3 ∧
      (writeLoop ⟨true, true, fun _ => true, fun _ => true, fun _ => 1500000,
        fun _ => 700000⟩ ([[7], [8]].map Recv.batch)).writeTimes[1]? = some 1) ∧
    ∃ out, readLoop idArchive (fun b : Nat => b) gateOpen 1 4097 = some out ∧
      out.delivered.length = 2 ∧
      (writeLoop ⟨true, true, fun _ => true, fun _ => true, fun _ => 1500000,
        fun _ => 700000⟩ (out.delivered.map Recv.batch ++ [Recv.closed])).xVals =
          [2048, 4096] := by
  have h := writeLoop_series (B := Nat) (H := Nat)
    ⟨true, true, fun _ => true, fun _ => true, fun _ => 1500000, fun _ => 700000⟩ rfl rfl
  constructor
  · have h2 := (h.1 [[7], [8]] (fun _ _ => ⟨rfl, rfl⟩)).2.2.2
      (fun _ _ => ⟨by simp, by simp⟩) (by decide) (by decide) (by decide) 1 (by decide)
    refine ⟨?_, ?_, ?_⟩
    · rw [h2.1]; decide
    · rw [h2.2.1]; decide
    · rw [h2.2.2]; decide
  · obtain ⟨out, h1, h2, h3, _⟩ := h.2 idArchive (fun b : Nat => b) (fun _ _ _ => rfl)
      (fun _ _ => ⟨rfl, rfl⟩)
    exact ⟨out, h1, h2, h3⟩

/-! ## Properties of readLoop -/

/-- C1 (code defect): on the range from 1 to 2000 with every retrieval succeeding and
the gate never closed, `readLoop` makes its 1999 `Retrieve` calls and closes the
channel, but delivers no batch at all: the 1999 headers accumulated in the chunk are
dropped, since a batch is only sent when the chunk reaches `chunkSize`. -/
theorem readLoop_drops_short_range {B H : Type} (retrieve : Nat → Option B)
    (decode : B → H) (hr : ∀ k, 1 ≤ k → k < 2000 → (retrieve k).isSome = true) :
    readLoop retrieve decode gateOpen 1 2000 = some ⟨[], true, List.range' 1 1999⟩ := by
  have h := readLoop_all_ok retrieve decode gateOpen 2000 1 (by decide)
    (by simp [uint64Mod]) hr (fun _ => rfl)
  have e : (2000 - 1) / chunkSize = 0 := by decide
  rw [e] at h
  exact h

/-- An instance of `readLoop_drops_short_range`. -/
theorem readLoop_drops_short_range_witness :
    (∀ k, 1 ≤ k → k < 2000 → (idArchive k).isSome = true) ∧
      readLoop idArchive (fun b : Nat => b) gateOpen 1 2000 =
        some ⟨[], true, List.range' 1 1999⟩ :=
  ⟨fun _ _ _ => rfl, readLoop_drops_short_range idArchive (fun b : Nat => b) (fun _ _ _ => rfl)⟩

/-- C2 (code defect): on the range from 1 to 4000 with every retrieval succeeding and
the gate never closed, the batches delivered by `readLoop` concatenate to the headers of
the indices 1 to 2048 only; the headers of the indices 2049 to 3999 are retrieved (there
are 3999 `Retrieve` calls) and never delivered. -/
theorem readLoop_concat_misses_tail {B H : Type} (retrieve : Nat → Option B)
    (decode : B → H) (hr : ∀ k, 1 ≤ k → k < 4000 → (retrieve k).isSome = true) :
    ∃ out, readLoop retrieve decode gateOpen 1 4000 = some out ∧
      out.closed = true ∧ out.calls = List.range' 1 3999 ∧
      out.delivered.flatten.map some =
        (List.range' 1 2048).map (headerAt retrieve decode) ∧
      out.delivered.flatten.length = 2048 ∧
      out.delivered.flatten.map some ≠
        (List.range' 1 3999).map (headerAt retrieve decode) := by
  have h := readLoop_all_ok retrieve decode gateOpen 4000 1 (by decide)
    (by simp [uint64Mod]) hr (fun _ => rfl)
  have e : (4000 - 1) / chunkSize = 1 := by decide
  rw [e] at h
  have hfl : (batchesOf retrieve decode 1 1).flatten = headersOf retrieve decode 1 2048 := by
    rw [batchesOf_flatten]; rfl
  have hms := headersOf_map_some retrieve decode 1 2048 (fun k h1 h2 => hr k h1 (by omega))
  have hlen := headersOf_length retrieve decode 1 2048 (fun k h1 h2 => hr k h1 (by omega))
  refine ⟨_, h, rfl, rfl, ?_, ?_, ?_⟩
  · simp only [hfl]; exact hms
  · simp only [hfl]; exact hlen
  · simp only [hfl]
    intro hcontra
    have := congrArg List.length hcontra
    simp [hlen] at this

/-- An instance of `readLoop_concat_misses_tail`. -/
theorem readLoop_concat_misses_tail_witness :
    (∀ k, 1 ≤ k → k < 4000 → (idArchive k).isSome = true) ∧
    ∃ out, readLoop idArchive (fun b : Nat => b) gateOpen 1 4000 = some out ∧
      out.closed = true ∧ out.calls = List.range' 1 3999 ∧
      out.delivered.flatten.map some =
        (List.range' 1 2048).map (headerAt idArchive (fun b : Nat => b)) ∧
      out.delivered.flatten.length = 2048 ∧
      out.delivered.flatten.map some ≠
        (List.range' 1 3999).map (headerAt idArchive (fun b : Nat => b)) :=
  ⟨fun _ _ _ => rfl,
    readLoop_concat_misses_tail idArchive (fun b : Nat => b) (fun _ _ _ => rfl)⟩

/-- C4: when `Retrieve` succeeds on the indices `from` to `k - 1` and fails on `k`
(with `from ≤ k < to` and the gate never closed), `readLoop` returns without closing
the channel, its `Retrieve` calls are exactly those of the indices `from` to `k`, and it
has delivered exactly `(k - from) / chunkSize` batches, each of `chunkSize` headers,
which are in order the headers of the first `(k - from) / chunkSize * chunkSize`
indices of the range. -/
theorem readLoop_retrieve_failure {B H : Type} (retrieve : Nat → Option B)
    (decode : B → H) (from_ to_ k : Nat) (hfk : from_ ≤ k) (hk : k < to_)
    (ht : to_ < uint64Mod)
    (hr : ∀ i, from_ ≤ i → i < k → (retrieve i).isSome = true)
    (hfail : retrieve k = none) :
    ∃ out, readLoop retrieve decode gateOpen from_ to_ = some out ∧
      out.closed = false ∧
      out.calls = List.range' from_ (k - from_ + 1) ∧
      (∀ i ∈ out.calls, i ≤ k) ∧
      out.delivered.length = (k - from_) / chunkSize ∧
      (∀ b ∈ out.delivered, b.length = chunkSize) ∧
      out.delivered.flatten.map some =
        (List.range' from_ ((k - from_) / chunkSize * chunkSize)).map
          (headerAt retrieve decode) := by
  have h := readLoop_first_error retrieve decode gateOpen to_ from_ k hfk hk ht hr hfail
    (fun _ => rfl)
  have hle : (k - from_) / chunkSize * chunkSize ≤ k - from_ := Nat.div_mul_le_self _ _
  have hsome : ∀ i, from_ ≤ i → i < from_ + (k - from_) / chunkSize * chunkSize →
      (retrieve i).isSome = true := fun i h1 h2 => hr i h1 (by omega)
  refine ⟨_, h, rfl, rfl, ?_, ?_, ?_, ?_⟩
  · intro i hi
    simp only [List.mem_range'_1] at hi
    omega
  · exact batchesOf_length retrieve decode from_ _
  · exact batchesOf_mem_length retrieve decode from_ _ hsome
  · simp only [batchesOf_flatten]
    exact headersOf_map_some retrieve decode from_ _ hsome

/-- An instance of `readLoop_retrieve_failure`: the range from 1 to 9 with a failure
at index 3. -/
theorem readLoop_retrieve_failure_witness :
    ∃ out, readLoop (holedArchive 3) (fun b : Nat => b) gateOpen 1 9 = some out ∧
      out.closed = false ∧
      out.calls = List.range' 1 (3 - 1 + 1) ∧
      (∀ i ∈ out.calls, i ≤ 3) ∧
      out.delivered.length = (3 - 1) / chunkSize ∧
      (∀ b ∈ out.delivered, b.length = chunkSize) ∧
      out.delivered.flatten.map some =
        (List.range' 1 ((3 - 1) / chunkSize * chunkSize)).map
          (headerAt (holedArchive 3) (fun b : Nat => b)) :=
  readLoop_retrieve_failure (holedArchive 3) (fun b : Nat => b) 1 9 3 (by decide) (by decide)
    (by simp [uint64Mod])
    (fun i _ h2 => by
      have hne : i ≠ 3 := by omega
      simp [holedArchive, hne])
    (by simp [holedArchive])

/-- C9: when every retrieval of the range succeeds, the range holds at least `j` whole
batches (`j ≥ 1`), the selects of the first `j - 1` delivery attempts deliver and the
select of attempt `j` takes the gate branch, `readLoop` returns with exactly `j - 1`
batches delivered (the first `j - 1` groups of `chunkSize` headers), without closing the
channel, its last `Retrieve` call being the one that completed batch `j`. -/
theorem readLoop_gate_closed {B H : Type} (retrieve : Nat → Option B) (decode : B → H)
    (gate : Nat → Bool) (from_ to_ j : Nat) (hj : 1 ≤ j)
    (hrange : from_ + j * chunkSize ≤ to_) (ht : to_ < uint64Mod)
    (hr : ∀ i, from_ ≤ i → i < to_ → (retrieve i).isSome = true)
    (hopen : ∀ a, a + 1 < j → gate a = false) (hclosed : gate (j - 1) = true) :
    ∃ out, readLoop retrieve decode gate from_ to_ = some out ∧
      out.closed = false ∧
      out.delivered.length = j - 1 ∧
      out.delivered = batchesOf retrieve decode from_ (j - 1) ∧
      (∀ b ∈ out.delivered, b.length = chunkSize) ∧
      out.delivered.flatten.map some =
        (List.range' from_ ((j - 1) * chunkSize)).map (headerAt retrieve decode) ∧
      out.calls = List.range' from_ (j * chunkSize) := by
  obtain ⟨j', rfl⟩ : ∃ j', j = j' + 1 := ⟨j - 1, by omega⟩
  have hmul : (j' + 1) * chunkSize = j' * chunkSize + chunkSize := Nat.succ_mul _ _
  have h := readLoop_cancel_at retrieve decode gate to_ from_ j' hrange ht
    (fun i h1 h2 => hr i h1 (by omega)) (fun a ha => hopen a (by omega))
    (by simpa using hclosed)
  have hsome : ∀ i, from_ ≤ i → i < from_ + j' * chunkSize →
      (retrieve i).isSome = true := fun i h1 h2 => hr i h1 (by omega)
  refine ⟨_, h, rfl, ?_, ?_, ?_, ?_, rfl⟩
  · simp [batchesOf_length]
  · simp
  · simpa using batchesOf_mem_length retrieve decode from_ j' hsome
  · simp only [Nat.add_sub_cancel, batchesOf_flatten]
    exact headersOf_map_some retrieve decode from_ _ hsome

/-- An instance of `readLoop_gate_closed`: the first delivery attempt is cancelled. -/
theorem readLoop_gate_closed_witness :
    ∃ out, readLoop idArchive (fun b : Nat => b) (fun _ => true) 0 2048 = some out ∧
      out.closed = false ∧
      out.delivered.length = 1 - 1 ∧
      out.delivered = batchesOf idArchive (fun b : Nat => b) 0 (1 - 1) ∧
      (∀ b ∈ out.delivered, b.length = chunkSize) ∧
      out.delivered.flatten.map some =
        (List.range' 0 ((1 - 1) * chunkSize)).map (headerAt idArchive (fun b : Nat => b)) ∧
      out.calls = List.range' 0 (1 * chunkSize) :=
  readLoop_gate_closed idArchive (fun b : Nat => b) (fun _ => true) 0 2048 1 (by decide)
    (by decide) (by simp [uint64Mod]) (fun _ _ _ => rfl) (fun a ha => by omega) rfl

/-- C10: for `0 ≤ count ≤ 2^63 - 1` the bound `uint64(1+count)` computed by `doImport`
is the exact value `1 + count`, also at `count = 2^63 - 1` where the signed addition
wraps to `-2^63`; the range from 1 to that bound holds exactly `count` indices; and for
every behaviour of `Retrieve` and every way the selects are resolved `readLoop` returns,
having made at most `count` calls of `Retrieve`, at the consecutive indices `1, 2, ...`
(the counter never wraps). -/
theorem readBound_exact_and_loop_terminates {B H : Type} (retrieve : Nat → Option B)
    (decode : B → H) (gate : Nat → Bool) (count : Int) (h0 : 0 ≤ count)
    (h1 : count ≤ 2 ^ 63 - 1) :
    (readBound count : Int) = 1 + count ∧
      wrapInt64 (1 + (2 ^ 63 - 1)) = -(2 ^ 63) ∧
      (List.range' 1 (readBound count - 1)).length = count.toNat ∧
      ∃ out, ∃ m : Nat, readLoop retrieve decode gate 1 (readBound count) = some out ∧
        (m : Int) ≤ count ∧ out.calls = List.range' 1 m := by
  have hb : (readBound count : Int) = 1 + count := by
    unfold readBound toUint64 wrapInt64
    omega
  have hlt : readBound count < uint64Mod := by
    unfold uint64Mod
    omega
  obtain ⟨out, m, hout, hm, hcalls⟩ :=
    readLoop_total retrieve decode gate (readBound count) 1 hlt
  refine ⟨hb, by decide, ?_, out, m, hout, by omega, hcalls⟩
  rw [List.length_range']
  omega

/-- An instance of `readBound_exact_and_loop_terminates` at the largest count. -/
theorem readBound_exact_and_loop_terminates_witness :
    (readBound (2 ^ 63 - 1) : Int) = 1 + (2 ^ 63 - 1) ∧
      wrapInt64 (1 + (2 ^ 63 - 1)) = -(2 ^ 63) ∧
      (List.range' 1 (readBound (2 ^ 63 - 1) - 1)).length = (2 ^ 63 - 1 : Int).toNat ∧
      ∃ out, ∃ m : Nat, readLoop idArchive (fun b : Nat => b) gateOpen 1
          (readBound (2 ^ 63 - 1)) = some out ∧
        (m : Int) ≤ 2 ^ 63 - 1 ∧ out.calls = List.range' 1 m :=
  readBound_exact_and_loop_terminates idArchive (fun b : Nat => b) gateOpen (2 ^ 63 - 1)
    (by decide) (by decide)

/-! ## Properties of the pipeline, of doImport and of main -/

/-- C3: in every state reached by a run of the pipeline on the range from `from` to
`to` (a `uint64`, so `to < 2^64`), whatever the retrievals, validations, insertions and
the gate do, the headers committed by `writeLoop` are exactly the headers of the indices
`from`, ..., `from + m - 1`, in this order, for some `m ≤ to - from`. -/
theorem pipeline_committed_gap_free {B H : Type} (retrieve : Nat → Option B)
    (decode : B → H) (env : ChainEnv) (from_ to_ : Nat) (ht : to_ < uint64Mod)
    (sched : List Event) (s : System H)
    (hrun : run retrieve decode env to_ (System.init H from_) sched = some s) :
    ∃ m, m ≤ to_ - from_ ∧
      s.writer.committed.map some =
        (List.range' from_ m).map (headerAt retrieve decode) :=
  inv_committed retrieve decode from_ to_ s
    (inv_run retrieve decode env from_ to_ ht sched _ s (inv_init retrieve decode from_ to_)
      hrun)

/-- An instance of `pipeline_committed_gap_free`: a run on the range from 1 to 3. -/
theorem pipeline_committed_gap_free_witness :
    run idArchive (fun b : Nat => b) okEnv 3 (System.init Nat 1)
        [Event.read, Event.writerInit, Event.read, Event.read, Event.recvClosed] =
      some ⟨Reader.returned true,
        ⟨WriterPc.returned, 0, 0, 0, [], [], [], [], [], [], some ([], [], [])⟩, false⟩ ∧
    ∃ m, m ≤ 3 - 1 ∧
      List.map some ([] : List Nat) =
        (List.range' 1 m).map (headerAt idArchive (fun b : Nat => b)) :=
  ⟨by decide,
    pipeline_committed_gap_free idArchive (fun b : Nat => b) okEnv 1 3 (by simp [uint64Mod])
      [Event.read, Event.writerInit, Event.read, Event.read, Event.recvClosed]
      ⟨Reader.returned true,
        ⟨WriterPc.returned, 0, 0, 0, [], [], [], [], [], [], some ([], [], [])⟩, false⟩
      (by decide)⟩

/-- C7 (as stated, refuted): the count argument "-5" is accepted by `strconv.Atoi`, so
`main` calls `doImport` with the count `-5`, and the bound passed to `readLoop` is
`uint64(1 + (-5)) = 2^64 - 4`. -/
theorem main_accepts_negative_count :
    atoi "-5" = some (-5) ∧
      (main ["headerimport", "ancient", "-5"] ⟨true, true, true⟩ idArchive
        (fun b : Nat => b) okEnv []).importArgs = some ("ancient", -5) ∧
      readBound (-5) = 2 ^ 64 - 4 := by
  refine ⟨by decide, by decide, by decide⟩

/-- C7 (amended): when `os.Args` has fewer than three entries, or its third entry is
rejected by `strconv.Atoi`, `main` exits with status 1 without calling `doImport`; and
when the third entry is accepted with value `n` (negative or not), `doImport` is called
with the count `n`. -/
theorem main_exits_on_unparsable_count {B H : Type} (args : List String)
    (setup : SetupEnv) (retrieve : Nat → Option B) (decode : B → H) (env : ChainEnv)
    (sched : List Event) :
    ((args.length < 3 ∨ ∃ c, args[2]? = some c ∧ atoi c = none) →
      main args setup retrieve decode env sched = ⟨none, some 1⟩) ∧
    (∀ c n, args[2]? = some c → atoi c = some n →
      ∃ dir, args[1]? = some dir ∧
        (main args setup retrieve decode env sched).importArgs = some (dir, n)) := by
  constructor
  · rintro (h | ⟨c, hc, hnone⟩)
    · match args, h with
      | [], _ => rfl
      | [_], _ => rfl
      | [_, _], _ => rfl
      | _ :: _ :: _ :: _, h => simp at h; omega
    · match args, hc with
      | _ :: _ :: c' :: _, hc =>
        simp only [List.getElem?_cons_succ, List.getElem?_cons_zero, Option.some.injEq] at hc
        subst hc
        simp [main, hnone]
  · intro c n hc hn
    match args, hc with
    | _ :: dir :: c' :: _, hc =>
      simp only [List.getElem?_cons_succ, List.getElem?_cons_zero, Option.some.injEq] at hc
      subst hc
      refine ⟨dir, rfl, ?_⟩
      simp only [main, hn]
      cases doImport setup retrieve decode env n sched with
      | none => rfl
      | some r => cases r <;> rfl

/-- An instance of `main_exits_on_unparsable_count`: the count "12a" is rejected, the
count "7" is passed on. -/
theorem main_exits_on_unparsable_count_witness :
    (∃ c, ["headerimport", "ancient", "12a"][2]? = some c ∧ atoi c = none) ∧
      main ["headerimport", "ancient", "12a"] ⟨true, true, true⟩ idArchive
        (fun b : Nat => b) okEnv [] = ⟨none, some 1⟩ ∧
      ["headerimport", "ancient", "7"][2]? = some "7" ∧ atoi "7" = some 7 ∧
      ∃ dir, ["headerimport", "ancient", "7"][1]? = some dir ∧
        (main ["headerimport", "ancient", "7"] ⟨true, true, true⟩ idArchive
          (fun b : Nat => b) okEnv []).importArgs = some (dir, 7) :=
  ⟨⟨"12a", rfl, by decide⟩,
    (main_exits_on_unparsable_count ["headerimport", "ancient", "12a"] ⟨true, true, true⟩
      idArchive (fun b : Nat => b) okEnv []).1 (Or.inr ⟨"12a", rfl, by decide⟩),
    rfl, by decide,
    (main_exits_on_unparsable_count ["headerimport", "ancient", "7"] ⟨true, true, true⟩
      idArchive (fun b : Nat => b) okEnv []).2 "7" 7 rfl (by decide)⟩

/-- C8 (as stated, refuted): with count 1 and a failing retrieval of item 1, `readLoop`
returns without closing the channel; after an interrupt `writeLoop` returns too, and
`doImport` returns `nil`, so that `main` exits with status 0. Likewise with count 0 and
a failing genesis set-up `doImport` returns `nil`. -/
theorem doImport_nil_after_pipeline_error :
    (run (fun _ => (none : Option Nat)) (fun b : Nat => b) okEnv (readBound 1)
        (System.init Nat 1)
        [Event.read, Event.writerInit, Event.interrupt, Event.writerCancel]).map
        (fun s => s.reader) = some (Reader.returned false) ∧
      doImport ⟨true, true, true⟩ (fun _ => (none : Option Nat)) (fun b : Nat => b) okEnv 1
        [Event.read, Event.writerInit, Event.interrupt, Event.writerCancel] =
        some GoError.nil ∧
      (main ["headerimport", "ancient", "1"] ⟨true, true, true⟩
        (fun _ => (none : Option Nat)) (fun b : Nat => b) okEnv
        [Event.read, Event.writerInit, Event.interrupt, Event.writerCancel]).exit = some 0 ∧
      doImport ⟨true, true, true⟩ idArchive (fun b : Nat => b)
        ⟨false, true, fun _ => true, fun _ => true, fun _ => 0, fun _ => 0⟩ 0
        [Event.read, Event.writerInit] = some GoError.nil := by
  refine ⟨by decide, by decide, by decide, by decide⟩

/-- C8 (amended): `doImport` returns a non-nil error exactly when one of its set-up
calls fails, before the loops are started, and `main` then exits with status 1; once
`readLoop` and `writeLoop` are started, whatever fails inside them, `doImport` can only
return `nil`, and `main` exits with status 0 as soon as `doImport` returns. -/
theorem doImport_error_only_from_setup {B H : Type} (setup : SetupEnv)
    (retrieve : Nat → Option B) (decode : B → H) (env : ChainEnv) (count : Int)
    (sched : List Event) :
    ((setup.tempDbOk && setup.dbOk && setup.freezerOk) = false →
      (∃ msg, doImport setup retrieve decode env count sched = some (GoError.err msg)) ∧
      ∀ prog dir c rest, atoi c = some count →
        main (prog :: dir :: c :: rest) setup retrieve decode env sched =
          ⟨some (dir, count), some 1⟩) ∧
    ((setup.tempDbOk && setup.dbOk && setup.freezerOk) = true →
      (∀ r, doImport setup retrieve decode env count sched = some r → r = GoError.nil) ∧
      (∀ prog dir c rest, atoi c = some count →
        ∀ st, (main (prog :: dir :: c :: rest) setup retrieve decode env sched).exit = some st →
          st = 0) ∧
      ∀ prog dir c rest, atoi c = some count →
        ∀ r, doImport setup retrieve decode env count sched = some r →
          main (prog :: dir :: c :: rest) setup retrieve decode env sched =
            ⟨some (dir, count), some 0⟩) := by
  constructor
  · intro h
    have herr : ∃ msg, doImport setup retrieve decode env count sched =
        some (GoError.err msg) := by
      cases h1 : setup.tempDbOk
      · exact ⟨"Failed creating temp db", by simp [doImport, h1]⟩
      · cases h2 : setup.dbOk
        · exact ⟨"Failed creating temp db", by simp [doImport, h1, h2]⟩
        · cases h3 : setup.freezerOk
          · exact ⟨"Failed opening ancients", by simp [doImport, h1, h2, h3]⟩
          · simp [h1, h2, h3] at h
    refine ⟨herr, ?_⟩
    intro prog dir c rest hc
    obtain ⟨msg, hmsg⟩ := herr
    simp only [main, hc, hmsg]
  · intro h
    simp only [Bool.and_eq_true] at h
    obtain ⟨⟨h1, h2⟩, h3⟩ := h
    have key : ∀ r, doImport setup retrieve decode env count sched = some r →
        r = GoError.nil := by
      intro r hr
      simp only [doImport, h1, h2, h3, Bool.not_true, Bool.false_eq_true, if_false] at hr
      cases hrun : run retrieve decode env (readBound count) (System.init H 1) sched with
      | none => simp [hrun] at hr
      | some s =>
        simp only [hrun] at hr
        split at hr
        · exact (Option.some.inj hr).symm
        · exact absurd hr (by simp)
    refine ⟨key, ?_, ?_⟩
    · intro prog dir c rest hc st hst
      simp only [main, hc] at hst
      cases hd : doImport setup retrieve decode env count sched with
      | none => simp [hd] at hst
      | some r =>
        have := key r hd
        subst this
        simp only [hd, Option.some.injEq] at hst
        exact hst.symm
    · intro prog dir c rest hc r hr
      have := key r hr
      subst this
      simp only [main, hc, hr]

/-- An instance of `doImport_error_only_from_setup`: a failing `setupTempDB`, for which
`main` exits with status 1, and a successful set-up followed by a complete run on
count 0, for which `main` exits with status 0. -/
theorem doImport_error_only_from_setup_witness :
    ((∃ msg, doImport ⟨false, true, true⟩ idArchive (fun b : Nat => b) okEnv 0 [] =
        some (GoError.err msg)) ∧
      main ["headerimport", "ancient", "0"] ⟨false, true, true⟩ idArchive
        (fun b : Nat => b) okEnv [] = ⟨some ("ancient", 0), some 1⟩) ∧
      (∀ r, doImport ⟨true, true, true⟩ idArchive (fun b : Nat => b) okEnv 0
        [Event.read, Event.writerInit, Event.recvClosed] = some r → r = GoError.nil) ∧
      doImport ⟨true, true, true⟩ idArchive (fun b : Nat => b) okEnv 0
        [Event.read, Event.writerInit, Event.recvClosed] = some GoError.nil ∧
      main ["headerimport", "ancient", "0"] ⟨true, true, true⟩ idArchive
        (fun b : Nat => b) okEnv [Event.read, Event.writerInit, Event.recvClosed] =
          ⟨some ("ancient", 0), some 0⟩ :=
  ⟨⟨((doImport_error_only_from_setup ⟨false, true, true⟩ idArchive (fun b : Nat => b) okEnv 0
        []).1 rfl).1,
      ((doImport_error_only_from_setup ⟨false, true, true⟩ idArchive (fun b : Nat => b) okEnv 0
        []).1 rfl).2 "headerimport" "ancient" "0" [] (by decide)⟩,
    ((doImport_error_only_from_setup ⟨true, true, true⟩ idArchive (fun b : Nat => b) okEnv 0
      [Event.read, Event.writerInit, Event.recvClosed]).2 rfl).1,
    by decide,
    ((doImport_error_only_from_setup ⟨true, true, true⟩ idArchive (fun b : Nat => b) okEnv 0
      [Event.read, Event.writerInit, Event.recvClosed]).2 rfl).2.2
      "headerimport" "ancient" "0" [] (by decide) GoError.nil (by decide)⟩

end HeaderImport
